import Mathlib

/-!
A type-erased callable wrapper.

Shallow embedding of `function_detail.h` (placement decision, operation tables,
storage) and of `function.h` (the public wrapper), followed by the properties
proved about them.

Modelling conventions.

* A concrete callable type `T` is a descriptor `CType`: its size, alignment,
  move constructor, copy constructor and call operator.  The state of an object
  of such a type is a number (`Val`).  Types are named by a `TypeId`; the
  environment `Env` maps the name to the descriptor and fixes the word size and
  word alignment (`sizeof(void*)`, `alignof(void*)`).
* A pointer to a static operation table is the tag `Ops`: table identity is tag
  equality.  `Ops.table` dereferences the tag.
* Every object constructed inside a storage receives a fresh identity
  (`ObjId`); for a heap object the identity is also its address.  `Mem` keeps
  the live heap cells, the log of constructions, the log of releases
  (in-place destructor runs and deletes) and the number of allocation requests.
* A member function that takes a reference returns the referenced value again.
  An operation that may throw returns an `Outcome`; `ub` stands for undefined
  behaviour (a buffer read under the wrong representation, a null or dangling
  pointer dereferenced).
-/

/-- Failure conditions that can leave an operation of the wrapper. -/
inductive Exn where
  | bad_function_call
  | bad_alloc
  | thrown (code : Nat)
  deriving DecidableEq, Repr

/-- The message of `bad_function_call::what()`. -/
def bad_function_call.what : String := "bad function call"

namespace function_detail

/-- State of a callable object. -/
abbrev Val := Nat

/-- Name of a concrete callable type. -/
abbrev TypeId := Nat

/-- Identity of an object constructed inside a storage (the address, for a heap object). -/
abbrev ObjId := Nat

/-- A move constructor: given the source state it yields the state of the new
object and the state left behind in the source.  A `nothrow` one is declared
non-throwing, a `throwing` one may fail with a code. -/
inductive MoveCtor where
  | nothrow (f : Val → Val × Val)
  | throwing (f : Val → Except Nat (Val × Val))

/-- Model of `std::is_nothrow_move_constructible_v<T>`. -/
def MoveCtor.is_nothrow : MoveCtor → Bool
  | .nothrow _ => true
  | .throwing _ => false

/-- Running a move constructor on a source state. -/
def MoveCtor.run : MoveCtor → Val → Except Nat (Val × Val)
  | .nothrow f, v => .ok (f v)
  | .throwing f, v => f v

/-- Descriptor of a concrete callable type for the signature `R(Args...)`,
with `A` the type of argument lists. -/
structure CType (A R : Type) where
  sizeof : Nat
  alignof : Nat
  move_ctor : MoveCtor
  copy_ctor : Val → Except Nat Val
  call : Val → A → R

/-- The platform and the universe of callable types.  `alloc_ok n` tells whether
the allocation request number `n` (counted from zero) succeeds. -/
structure Env (A R : Type) where
  SIZE : Nat
  ALIGN : Nat
  ty : TypeId → CType A R
  alloc_ok : Nat → Bool

/-- Model of `fits_small_buf<T>`. -/
def fits_small_buf {A R : Type} (SIZE ALIGN : Nat) (T : CType A R) : Bool :=
  decide (T.sizeof ≤ SIZE) && decide (ALIGN % T.alignof = 0) && T.move_ctor.is_nothrow

/-- The placement decision for a named type: `fits_small_buf<T>` on this platform. -/
def Env.fits {A R : Type} (E : Env A R) (t : TypeId) : Bool :=
  fits_small_buf E.SIZE E.ALIGN (E.ty t)

/-- A pointer value as produced by `storage::get`. -/
inductive Ptr where
  | null
  | buf
  | heap (a : ObjId)
  | wild
  deriving DecidableEq, Repr

/-- Contents of the word-sized buffer `buf`. -/
inductive Buf where
  | zero
  | obj (t : TypeId) (o : ObjId) (v : Val)
  | ptr (p : Ptr)
  deriving DecidableEq, Repr

/-- The pointer `ops`: either `empty_ops<R, Args...>()` or
`ops_traits<T>::get_ops<R, Args...>()` for the type named `t`. -/
inductive Ops where
  | empty
  | traits (t : TypeId)
  deriving DecidableEq, Repr

/-- Model of `struct storage`. -/
structure storage where
  buf : Buf
  ops : Ops
  deriving DecidableEq, Repr

/-- Global memory: live heap cells `(address, type, state)`, the types of the
objects constructed in storages so far (the position in the list is the object
identity), the log of releases, and the number of allocation requests. -/
structure Mem where
  heap : List (ObjId × TypeId × Val)
  made : List TypeId
  freed : List (TypeId × ObjId)
  allocs : Nat
  deriving DecidableEq, Repr

/-- Memory before anything happened. -/
def Mem.init : Mem := { heap := [], made := [], freed := [], allocs := 0 }

/-- Result of an operation that may throw: the state after normal completion,
or the exception together with the state it leaves, or undefined behaviour. -/
inductive Outcome (σ τ : Type) where
  | ok (s : σ)
  | throw (e : Exn) (s : τ)
  | ub
  deriving DecidableEq, Repr

/-- Result of an invocation. -/
inductive Invoked (R : Type) where
  | ret (r : R)
  | throw (e : Exn)
  | ub
  deriving DecidableEq, Repr

section tables

variable {A R : Type}

/-- Model of the default constructor `storage()`. -/
def storage.default : storage := { buf := .zero, ops := .empty }

/-- Model of `storage::get<T>()`. -/
def storage.get (E : Env A R) (t : TypeId) (s : storage) : Ptr :=
  if E.fits t then .buf
  else
    match s.buf with
    | .ptr p => p
    | .zero => .null
    | .obj _ _ _ => .wild

/-- Model of `storage::set_dynamic<T>(obj)`. -/
def storage.set_dynamic (s : storage) (obj : Ptr) : storage :=
  { s with buf := .ptr obj }

/-- Reading the `T` object a pointer obtained from `s.get<T>()` points to:
its identity and state, when there is such an object. -/
def storage.deref (m : Mem) (s : storage) (t : TypeId) : Ptr → Option (ObjId × Val)
  | .buf =>
    match s.buf with
    | .obj t' o v => if t' = t then some (o, v) else none
    | _ => none
  | .heap a =>
    match m.heap.lookup a with
    | some (t', v) => if t' = t then some (a, v) else none
    | none => none
  | _ => none

/-- The effect of `p->~T()` for a pointer obtained from `s.get<T>()`. -/
def Mem.destroy_at (m : Mem) (s : storage) (t : TypeId) (p : Ptr) : Option Mem :=
  match s.deref m t p with
  | some (o, _) => some { m with freed := m.freed ++ [(t, o)] }
  | none => none

/-- The effect of `delete p`. -/
def Mem.delete (m : Mem) (t : TypeId) : Ptr → Option Mem
  | .null => some m
  | .heap a =>
    some { m with heap := m.heap.filter (fun c => c.1 != a), freed := m.freed ++ [(t, a)] }
  | _ => none

/-- The effect of `new T(init)`: one allocation request, then the construction. -/
def Mem.new (E : Env A R) (m : Mem) (t : TypeId) (init : Except Nat Val) :
    Outcome (Mem × Ptr) Mem :=
  let m1 := { m with allocs := m.allocs + 1 }
  if E.alloc_ok m.allocs then
    match init with
    | .ok v =>
      .ok ({ m1 with heap := (m.made.length, t, v) :: m.heap, made := m.made ++ [t] },
           .heap m.made.length)
    | .error e => .throw (.thrown e) m1
  else .throw .bad_alloc m1

/-- Model of the `invoke` entry of `empty_ops`. -/
def empty_ops_invoke (_m : Mem) (_func : storage) (_args : A) : Invoked R :=
  .throw .bad_function_call

/-- Model of the `destroy` entry of `empty_ops`. -/
def empty_ops_destroy (m : Mem) (func : storage) : Option (Mem × storage) :=
  some (m, func)

/-- Model of the `copy` entry of `empty_ops`. -/
def empty_ops_copy (m : Mem) (_src : storage) (dst : storage) :
    Outcome (Mem × storage) (Mem × storage) :=
  .ok (m, { dst with ops := .empty })

/-- Model of the `move` entry of `empty_ops`; the result is `(memory, from, to)`. -/
def empty_ops_move (m : Mem) (src : storage) (dst : storage) :
    Option (Mem × storage × storage) :=
  some (m, src, { dst with ops := .empty })

/-- Model of the `destroy` entry of the inline table of `T`. -/
def ops_traits_small.destroy (E : Env A R) (t : TypeId) (m : Mem) (func : storage) :
    Option (Mem × storage) :=
  let func1 := { func with ops := Ops.empty }
  match m.destroy_at func1 t (func1.get E t) with
  | some m1 => some (m1, func1)
  | none => none

/-- Model of the `destroy` entry of the heap table of `T`. -/
def ops_traits_heap.destroy (E : Env A R) (t : TypeId) (m : Mem) (func : storage) :
    Option (Mem × storage) :=
  let func1 := { func with ops := Ops.empty }
  match m.delete t (func1.get E t) with
  | some m1 => some (m1, func1.set_dynamic .null)
  | none => none

/-- The call `ops->destroy(s)` through a table pointer. -/
def Ops.destroy (E : Env A R) : Ops → Mem → storage → Option (Mem × storage)
  | .empty => empty_ops_destroy
  | .traits t => if E.fits t then ops_traits_small.destroy E t else ops_traits_heap.destroy E t

/-- Model of the `invoke` entry of the inline table of `T`. -/
def ops_traits_small.invoke (E : Env A R) (t : TypeId) (m : Mem) (func : storage) (args : A) :
    Invoked R :=
  match func.deref m t (func.get E t) with
  | some (_, v) => .ret ((E.ty t).call v args)
  | none => .ub

/-- Model of the `copy` entry of the inline table of `T`. -/
def ops_traits_small.copy (E : Env A R) (t : TypeId) (m : Mem) (src : storage) (dst : storage) :
    Outcome (Mem × storage) (Mem × storage) :=
  match Ops.destroy E dst.ops m dst with
  | none => .ub
  | some (m1, dst1) =>
    match src.deref m1 t (src.get E t) with
    | none => .ub
    | some (_, v) =>
      match (E.ty t).copy_ctor v with
      | .error e => .throw (.thrown e) (m1, dst1)
      | .ok v1 =>
        .ok ({ m1 with made := m1.made ++ [t] },
             { buf := .obj t m1.made.length v1, ops := src.ops })

/-- Model of the `move` entry of the inline table of `T`; the result is
`(memory, from, to)`.  A move constructor that fails inside this non-throwing
function ends the program, which the model does not distinguish from `ub`. -/
def ops_traits_small.move (E : Env A R) (t : TypeId) (m : Mem) (src : storage) (dst : storage) :
    Option (Mem × storage × storage) :=
  match Ops.destroy E dst.ops m dst with
  | none => none
  | some (m1, _) =>
    match src.deref m1 t (src.get E t) with
    | none => none
    | some (o, v) =>
      match (E.ty t).move_ctor.run v with
      | .error _ => none
      | .ok (v1, left) =>
        some ({ m1 with made := m1.made ++ [t] },
              { buf := .obj t o left, ops := .empty },
              { buf := .obj t m1.made.length v1, ops := src.ops })

/-- Model of the `invoke` entry of the heap table of `T`. -/
def ops_traits_heap.invoke (E : Env A R) (t : TypeId) (m : Mem) (func : storage) (args : A) :
    Invoked R :=
  match func.deref m t (func.get E t) with
  | some (_, v) => .ret ((E.ty t).call v args)
  | none => .ub

/-- Model of the `copy` entry of the heap table of `T`. -/
def ops_traits_heap.copy (E : Env A R) (t : TypeId) (m : Mem) (src : storage) (dst : storage) :
    Outcome (Mem × storage) (Mem × storage) :=
  match Ops.destroy E dst.ops m dst with
  | none => .ub
  | some (m1, dst1) =>
    match src.deref m1 t (src.get E t) with
    | none => .ub
    | some (_, v) =>
      match m1.new E t ((E.ty t).copy_ctor v) with
      | .ub => .ub
      | .throw e m2 => .throw e (m2, dst1)
      | .ok (m2, p) => .ok (m2, { (dst1.set_dynamic p) with ops := src.ops })

/-- Model of the `move` entry of the heap table of `T`; the result is
`(memory, from, to)`. -/
def ops_traits_heap.move (E : Env A R) (t : TypeId) (m : Mem) (src : storage) (dst : storage) :
    Option (Mem × storage × storage) :=
  match Ops.destroy E dst.ops m dst with
  | none => none
  | some (m1, dst1) =>
    some (m1, { src with ops := .empty }, { (dst1.set_dynamic (src.get E t)) with ops := src.ops })

/-- Model of `struct operations`: the four entries of a table. -/
structure operations (A R : Type) where
  invoke : Mem → storage → A → Invoked R
  destroy : Mem → storage → Option (Mem × storage)
  copy : Mem → storage → storage → Outcome (Mem × storage) (Mem × storage)
  move : Mem → storage → storage → Option (Mem × storage × storage)

/-- Model of the table `empty_ops<R, Args...>()` points to. -/
def empty_ops : operations A R :=
  { invoke := empty_ops_invoke
    destroy := empty_ops_destroy
    copy := empty_ops_copy
    move := empty_ops_move }

/-- Model of the table `ops_traits<T>::get_ops<R, Args...>()` points to: the
inline specialisation when `fits_small_buf<T>`, the heap one otherwise. -/
def ops_traits.get_ops (E : Env A R) (t : TypeId) : operations A R :=
  if E.fits t then
    { invoke := ops_traits_small.invoke E t
      destroy := ops_traits_small.destroy E t
      copy := ops_traits_small.copy E t
      move := ops_traits_small.move E t }
  else
    { invoke := ops_traits_heap.invoke E t
      destroy := ops_traits_heap.destroy E t
      copy := ops_traits_heap.copy E t
      move := ops_traits_heap.move E t }

/-- Dereferencing a table pointer. -/
def Ops.table (E : Env A R) : Ops → operations A R
  | .empty => empty_ops
  | .traits t => ops_traits.get_ops E t

/-- Model of the converting constructor `storage(T&& func)`: the callable with
state `func` is moved into the buffer or into a fresh heap object.  When it
throws, no storage has been constructed. -/
def storage.from_callable (E : Env A R) (t : TypeId) (m : Mem) (func : Val) :
    Outcome (Mem × storage) Mem :=
  if E.fits t then
    match (E.ty t).move_ctor.run func with
    | .ok (v, _) =>
      .ok ({ m with made := m.made ++ [t] },
           { buf := .obj t m.made.length v, ops := Ops.traits t })
    | .error e => .throw (.thrown e) m
  else
    match m.new E t (((E.ty t).move_ctor.run func).map Prod.fst) with
    | .ok (m1, p) => .ok (m1, { (storage.default.set_dynamic p) with ops := Ops.traits t })
    | .throw e m1 => .throw e m1
    | .ub => .ub

/-- Model of the destructor `~storage()`. -/
def storage.dtor (E : Env A R) (m : Mem) (s : storage) : Option (Mem × storage) :=
  (Ops.table E s.ops).destroy m s

end tables

end function_detail

open function_detail

/-- Model of `struct function<R(Args...)>`: the wrapper at address `addr` and its
only member. -/
structure function where
  addr : Nat
  storage : storage
  deriving DecidableEq, Repr

/-- What `target<T>()` returns: null, the object inside the buffer of the wrapper
at an address, or a heap object. -/
inductive Target where
  | null
  | in_wrapper (addr : Nat)
  | heap (a : ObjId)
  | wild
  deriving DecidableEq, Repr

namespace function

variable {A R : Type}

/-- Model of the default constructor `function()`. -/
def default (addr : Nat) : function := { addr := addr, storage := storage.default }

/-- Model of the destructor `~function()`: the member is destroyed. -/
def dtor (E : Env A R) (m : Mem) (self : function) : Option Mem :=
  match self.storage.dtor E m with
  | some (m1, _) => some m1
  | none => none

/-- Model of `function(T func)`. -/
def from_callable (E : Env A R) (addr : Nat) (t : TypeId) (m : Mem) (func : Val) :
    Outcome (Mem × function) Mem :=
  match storage.from_callable E t m func with
  | .ok (m1, s) => .ok (m1, { addr := addr, storage := s })
  | .throw e m1 => .throw e m1
  | .ub => .ub

/-- Model of the copy constructor `function(function const& other)`.  When the
table copy throws, the already constructed member is destroyed again. -/
def copy_ctor (E : Env A R) (addr : Nat) (m : Mem) (other : function) :
    Outcome (Mem × function) Mem :=
  match (Ops.table E other.storage.ops).copy m other.storage storage.default with
  | .ok (m1, s) => .ok (m1, { addr := addr, storage := s })
  | .throw e (m1, s) =>
    match s.dtor E m1 with
    | some (m2, _) => .throw e m2
    | none => .ub
  | .ub => .ub

/-- Model of the move constructor `function(function&& other)`; the result is
`(memory, other, the new wrapper)`. -/
def move_ctor (E : Env A R) (addr : Nat) (m : Mem) (other : function) :
    Option (Mem × function × function) :=
  match (Ops.table E other.storage.ops).move m other.storage storage.default with
  | some (m1, o1, s) => some (m1, { other with storage := o1 }, { addr := addr, storage := s })
  | none => none

/-- Model of the copy assignment `operator=(function const& other)`. -/
def assign_copy (E : Env A R) (m : Mem) (self other : function) :
    Outcome (Mem × function) (Mem × function) :=
  if self.addr ≠ other.addr then
    match (Ops.table E self.storage.ops).move m self.storage storage.default with
    | none => .ub
    | some (m1, self1, backup) =>
      match (Ops.table E other.storage.ops).copy m1 other.storage self1 with
      | .ok (m2, self2) =>
        match backup.dtor E m2 with
        | some (m3, _) => .ok (m3, { self with storage := self2 })
        | none => .ub
      | .throw e (m2, self2) =>
        match (Ops.table E backup.ops).move m2 backup self2 with
        | none => .ub
        | some (m3, backup1, self3) =>
          match backup1.dtor E m3 with
          | some (m4, _) => .throw e (m4, { self with storage := self3 })
          | none => .ub
      | .ub => .ub
  else .ok (m, self)

/-- Model of the move assignment `operator=(function&& other)`; the result is
`(memory, this wrapper, other)`. -/
def assign_move (E : Env A R) (m : Mem) (self other : function) :
    Option (Mem × function × function) :=
  if self.addr ≠ other.addr then
    match (Ops.table E other.storage.ops).move m other.storage self.storage with
    | some (m1, o1, s1) => some (m1, { self with storage := s1 }, { other with storage := o1 })
    | none => none
  else some (m, self, other)

/-- Model of `explicit operator bool()`. -/
def to_bool (self : function) : Bool :=
  decide (self.storage.ops ≠ Ops.empty)

/-- Model of `operator()(Args&&... args)`. -/
def call (E : Env A R) (m : Mem) (self : function) (args : A) : Invoked R :=
  (Ops.table E self.storage.ops).invoke m self.storage args

/-- Model of `target<T>()`, in both variants. -/
def target (E : Env A R) (t : TypeId) (self : function) : Target :=
  if self.storage.ops = Ops.traits t then
    match self.storage.get E t with
    | .null => .null
    | .buf => .in_wrapper self.addr
    | .heap a => .heap a
    | .wild => .wild
  else .null

end function

/-- A program state: the memory and the wrappers that are alive. -/
structure State where
  mem : Mem
  ws : List function
  deriving DecidableEq, Repr

/-- The public operations on wrappers named by their addresses. -/
inductive Cmd (A : Type) where
  | construct_empty (w : Nat)
  | construct_from (w : Nat) (t : TypeId) (func : Val)
  | copy_construct (w : Nat) (other : Nat)
  | move_construct (w : Nat) (other : Nat)
  | copy_assign (w : Nat) (other : Nat)
  | move_assign (w : Nat) (other : Nat)
  | invoke (w : Nat) (args : A)
  | destroy (w : Nat)

namespace State

variable {A R : Type}

/-- The state of a program that has not started. -/
def init : State := { mem := Mem.init, ws := [] }

/-- The live wrapper at an address. -/
def find (s : State) (a : Nat) : Option function :=
  s.ws.find? (fun w => decide (w.addr = a))

/-- Writing back the wrapper at address `w.addr`. -/
def set (s : State) (m : Mem) (w : function) : State :=
  { mem := m, ws := s.ws.map (fun x => if x.addr = w.addr then w else x) }

/-- A wrapper comes to life. -/
def add (s : State) (m : Mem) (w : function) : State :=
  { mem := m, ws := w :: s.ws }

/-- The lifetime of the wrapper at an address ends. -/
def remove (s : State) (m : Mem) (a : Nat) : State :=
  { mem := m, ws := s.ws.filter (fun x => decide (x.addr ≠ a)) }

/-- One public operation.  The result is `none` when the operation is not
applicable (no live wrapper at a named address, or the address of a new wrapper
is in use) or has undefined behaviour; an exception that leaves the operation is
caught by the client, and the program goes on. -/
def step (E : Env A R) (s : State) : Cmd A → Option State
  | .construct_empty w =>
    match s.find w with
    | some _ => none
    | none => some (s.add s.mem (function.default w))
  | .construct_from w t func =>
    match s.find w with
    | some _ => none
    | none =>
      match function.from_callable E w t s.mem func with
      | .ok (m, f) => some (s.add m f)
      | .throw _ m => some { s with mem := m }
      | .ub => none
  | .copy_construct w other =>
    match s.find w, s.find other with
    | none, some o =>
      match function.copy_ctor E w s.mem o with
      | .ok (m, f) => some (s.add m f)
      | .throw _ m => some { s with mem := m }
      | .ub => none
    | _, _ => none
  | .move_construct w other =>
    match s.find w, s.find other with
    | none, some o =>
      match function.move_ctor E w s.mem o with
      | some (m, o1, f) => some ((s.set m o1).add m f)
      | none => none
    | _, _ => none
  | .copy_assign w other =>
    match s.find w, s.find other with
    | some self, some o =>
      match function.assign_copy E s.mem self o with
      | .ok (m, self1) => some (s.set m self1)
      | .throw _ (m, self1) => some (s.set m self1)
      | .ub => none
    | _, _ => none
  | .move_assign w other =>
    match s.find w, s.find other with
    | some self, some o =>
      match function.assign_move E s.mem self o with
      | some (m, self1, o1) => some ((s.set m self1).set m o1)
      | none => none
    | _, _ => none
  | .invoke w args =>
    match s.find w with
    | some self =>
      match function.call E s.mem self args with
      | .ub => none
      | _ => some s
    | none => none
  | .destroy w =>
    match s.find w with
    | some self =>
      match function.dtor E s.mem self with
      | some m => some (s.remove m w)
      | none => none
    | none => none

/-- A finite sequence of public operations. -/
def run (E : Env A R) (s : State) : List (Cmd A) → Option State
  | [] => some s
  | c :: cs =>
    match step E s c with
    | some s1 => run E s1 cs
    | none => none

end State

/-! ## Predicates used in the statements -/

section predicates

variable {A R : Type}

/-- The callable a storage is bound to, read through its own table's type:
identity and state.  `none` for a storage bound to the empty table, and for a
storage whose buffer does not hold what its table expects. -/
def function_detail.storage.held (E : Env A R) (m : Mem) (s : storage) : Option (ObjId × Val) :=
  match s.ops with
  | .empty => none
  | .traits t => s.deref m t (s.get E t)

/-- The three states of a storage: bound to the empty table, or bound to the
table of a type `T` with a `T` object in the buffer (inline placement), or bound
to the table of `T` with the address of a live heap `T` object in the buffer. -/
def function_detail.storage.valid (E : Env A R) (m : Mem) (s : storage) : Bool :=
  match s.ops with
  | .empty => true
  | .traits t => (s.deref m t (s.get E t)).isSome

/-- Every live heap cell was constructed: its address is the identity of an
object in the construction log. -/
def function_detail.Mem.wf (m : Mem) : Prop :=
  ∀ c ∈ m.heap, c.1 < m.made.length

/-- The move constructor of a type produces an object equal to its source. -/
def function_detail.CType.move_keeps_value (T : CType A R) : Prop :=
  ∀ v, (T.move_ctor.run v).map Prod.fst = .ok v

/-- The copy constructor of a type succeeds and produces an object equal to its source. -/
def function_detail.CType.copy_keeps_value (T : CType A R) : Prop :=
  ∀ v, T.copy_ctor v = .ok v

/-- A client assigns the state `x` to the object that `target<T>()` points to;
the result is the memory and the wrapper afterwards. -/
def function.poke (E : Env A R) (t : TypeId) (m : Mem) (self : function) (x : Val) :
    Option (Mem × function) :=
  match self.target E t with
  | .in_wrapper _ =>
    match self.storage.buf with
    | .obj t1 o _ =>
      if t1 = t then some (m, { self with storage := { self.storage with buf := .obj t o x } })
      else none
    | _ => none
  | .heap a =>
    match m.heap.lookup a with
    | some (t1, _) =>
      if t1 = t then
        some ({ m with heap := m.heap.map (fun c => if c.1 = a then (a, t, x) else c) }, self)
      else none
    | none => none
  | _ => none

/-- Number of objects of type `t` constructed inside storages so far. -/
def function_detail.Mem.constructed (m : Mem) (t : TypeId) : Nat :=
  m.made.count t

/-- Number of releases (in-place destructor runs and deletes) through the table of `t` so far. -/
def function_detail.Mem.released (m : Mem) (t : TypeId) : Nat :=
  (m.freed.filter (fun p => p.1 == t)).length

/-- The identities of the objects released so far, in order. -/
def function_detail.Mem.released_ids (m : Mem) : List ObjId :=
  m.freed.map Prod.snd

/-- The identity of the object a storage holds, as a list with at most one entry. -/
def function_detail.storage.held_ids (E : Env A R) (m : Mem) (s : storage) : List ObjId :=
  match s.held E m with
  | some (o, _) => [o]
  | none => []

end predicates

/-! ## A concrete platform with a few callable types -/

namespace Example

/-- A stateless callable returning 42; one byte. -/
def answer : CType (List Nat) Nat :=
  { sizeof := 1, alignof := 1, move_ctor := .nothrow (fun v => (v, v)),
    copy_ctor := fun v => .ok v, call := fun _ _ => 42 }

/-- A callable capturing one word: it adds its state to the sum of the arguments. -/
def adder : CType (List Nat) Nat :=
  { sizeof := 8, alignof := 8, move_ctor := .nothrow (fun v => (v, 0)),
    copy_ctor := fun v => .ok v, call := fun v args => v + args.sum }

/-- A callable capturing a buffer of two words. -/
def big_adder : CType (List Nat) Nat :=
  { sizeof := 16, alignof := 8, move_ctor := .nothrow (fun v => (v, 0)),
    copy_ctor := fun v => .ok v, call := fun v args => v + args.sum }

/-- A callable of two words whose copy constructor always throws. -/
def no_copy : CType (List Nat) Nat :=
  { sizeof := 16, alignof := 8, move_ctor := .nothrow (fun v => (v, 0)),
    copy_ctor := fun _ => .error 7, call := fun v args => v + args.sum }

/-- A one-word callable that counts how often it was moved: the move
constructor adds one to the state; calling returns the state. -/
def move_counter : CType (List Nat) Nat :=
  { sizeof := 8, alignof := 8, move_ctor := .nothrow (fun v => (v + 1, v)),
    copy_ctor := fun v => .ok v, call := fun v _ => v }

/-- A one-word callable that counts how often it was copied: the copy
constructor adds one to the state; calling returns the state. -/
def copy_counter : CType (List Nat) Nat :=
  { sizeof := 8, alignof := 8, move_ctor := .nothrow (fun v => (v, v)),
    copy_ctor := fun v => .ok (v + 1), call := fun v _ => v }

/-- A one-word callable whose move constructor may throw. -/
def throwing_move : CType (List Nat) Nat :=
  { sizeof := 8, alignof := 8, move_ctor := .throwing (fun v => .ok (v, 0)),
    copy_ctor := fun v => .ok v, call := fun v args => v + args.sum }

/-- A one-byte callable aligned to sixteen bytes. -/
def over_aligned : CType (List Nat) Nat :=
  { sizeof := 1, alignof := 16, move_ctor := .nothrow (fun v => (v, 0)),
    copy_ctor := fun v => .ok v, call := fun v args => v + args.sum }

/-- A 64-bit platform on which every allocation succeeds. -/
def env : Env (List Nat) Nat :=
  { SIZE := 8
    ALIGN := 8
    ty := fun t =>
      match t with
      | 0 => answer
      | 1 => adder
      | 2 => big_adder
      | 3 => no_copy
      | 4 => move_counter
      | 5 => copy_counter
      | 6 => throwing_move
      | _ => over_aligned
    alloc_ok := fun _ => true }

/-- A memory with one live heap object of type `big_adder` and state 5, and one
inline object constructed before it. -/
def mem : Mem := { heap := [(1, 2, 5)], made := [1, 2], freed := [], allocs := 1 }

/-- A wrapper at address 10 holding the inline `adder` with state 3. -/
def w_inline : function := { addr := 10, storage := { buf := .obj 1 0 3, ops := .traits 1 } }

/-- A wrapper at address 11 holding the heap `big_adder` at address 1. -/
def w_heap : function := { addr := 11, storage := { buf := .ptr (.heap 1), ops := .traits 2 } }

end Example

/-! ## Invariants of reachable states -/

section invariants

variable {A R : Type}

/-- The release log names no object twice and names constructed objects only. -/
def function_detail.Mem.ok (m : Mem) : Prop :=
  m.released_ids.Nodup ∧ ∀ o ∈ m.released_ids, o < m.made.length

/-- A storage is in one of its three states, and the object it holds, if any,
has been constructed and has not been released. -/
def function_detail.storage.good (E : Env A R) (m : Mem) (s : storage) : Prop :=
  s.valid E m = true ∧
    ∀ o v, s.held E m = some (o, v) → o < m.made.length ∧ o ∉ m.released_ids

/-- Two storages do not hold the same object. -/
def function_detail.storage.sep (E : Env A R) (m : Mem) (s x : storage) : Prop :=
  ∀ o v o1 v1, s.held E m = some (o, v) → x.held E m = some (o1, v1) → o ≠ o1

/-- The memory `m1` continues `m`: objects were only added, the release log grew
by `rel`, and every heap object constructed before and not named in `rel` is
as it was. -/
def function_detail.Mem.ext (m m1 : Mem) (rel : List ObjId) : Prop :=
  m.made.length ≤ m1.made.length ∧ m1.released_ids = m.released_ids ++ rel ∧
    ∀ a, a < m.made.length → a ∉ rel → m1.heap.lookup a = m.heap.lookup a

/-- Where an object named after an operation comes from: it is new, or one of
the storages the operation worked on held it. -/
def function_detail.origin (E : Env A R) (m : Mem) (olds : List storage) (o : ObjId) : Prop :=
  m.made.length ≤ o ∨ ∃ s ∈ olds, ∃ v, s.held E m = some (o, v)

/-- An operation that turned the storages `olds` into the storages `news` left
every other storage alone: one that was good and held none of the objects of
`olds` is still good, holds what it held, and holds none of the objects of
`news`. -/
def function_detail.frame (E : Env A R) (m m1 : Mem) (olds news : List storage) : Prop :=
  ∀ x, x.good E m → (∀ s ∈ olds, s.sep E m x) →
    x.good E m1 ∧ x.held E m1 = x.held E m ∧ ∀ s ∈ news, s.sep E m1 x

/-- The invariant of program states: the release log is duplicate-free, every
live wrapper is good, and wrappers at different addresses hold different
objects. -/
def State.inv (E : Env A R) (s : State) : Prop :=
  s.mem.ok ∧
  (∀ a w, s.find a = some w → w.storage.good E s.mem) ∧
  (∀ a b wa wb, a ≠ b → s.find a = some wa → s.find b = some wb →
    wa.storage.sep E s.mem wb.storage)

/-- A public operation is applicable in a state when it constructs at a free
address and reads, assigns or destroys live wrappers only. -/
def Cmd.applicable (s : State) : Cmd A → Prop
  | .construct_empty w => s.find w = none
  | .construct_from w _ _ => s.find w = none
  | .copy_construct w other => s.find w = none ∧ (s.find other).isSome = true
  | .move_construct w other => s.find w = none ∧ (s.find other).isSome = true
  | .copy_assign w other => (s.find w).isSome = true ∧ (s.find other).isSome = true
  | .move_assign w other => (s.find w).isSome = true ∧ (s.find other).isSome = true
  | .invoke w _ => (s.find w).isSome = true
  | .destroy w => (s.find w).isSome = true

end invariants

/-! ## Basic facts -/

section basic

variable {A R : Type}

theorem valid_inline {E : Env A R} {m : Mem} {s : storage} {t : TypeId}
    (hops : s.ops = .traits t) (hf : E.fits t = true) (hv : s.valid E m = true) :
    ∃ o v, s.buf = .obj t o v := by
  obtain ⟨buf, ops⟩ := s
  simp only at hops
  subst hops
  cases buf with
  | zero => simp [storage.valid, storage.get, storage.deref, hf] at hv
  | obj t1 o v =>
    by_cases h : t1 = t
    · subst h; exact ⟨o, v, rfl⟩
    · simp [storage.valid, storage.get, storage.deref, hf, h] at hv
  | ptr p => simp [storage.valid, storage.get, storage.deref, hf] at hv

theorem valid_heap {E : Env A R} {m : Mem} {s : storage} {t : TypeId}
    (hops : s.ops = .traits t) (hf : E.fits t = false) (hv : s.valid E m = true) :
    ∃ a v, s.buf = .ptr (.heap a) ∧ m.heap.lookup a = some (t, v) := by
  obtain ⟨buf, ops⟩ := s
  simp only at hops
  subst hops
  cases buf with
  | zero => simp [storage.valid, storage.get, storage.deref, hf] at hv
  | obj t1 o v => simp [storage.valid, storage.get, storage.deref, hf] at hv
  | ptr p =>
    cases p with
    | heap a =>
      simp only [storage.valid, storage.get, storage.deref, hf] at hv
      cases hl : m.heap.lookup a with
      | none => simp [hl] at hv
      | some c =>
        obtain ⟨t1, v⟩ := c
        by_cases h : t1 = t
        · subst h; exact ⟨a, v, rfl, hl⟩
        · simp [hl, h] at hv
    | _ => simp [storage.valid, storage.get, storage.deref, hf] at hv

theorem fits_run_ok {E : Env A R} {t : TypeId} (hf : E.fits t = true) (v : Val) :
    ∃ p, (E.ty t).move_ctor.run v = .ok p := by
  simp only [Env.fits, fits_small_buf, Bool.and_eq_true] at hf
  cases hm : (E.ty t).move_ctor with
  | nothrow f => exact ⟨f v, rfl⟩
  | throwing f => simp [hm, MoveCtor.is_nothrow] at hf


theorem move_keeps_run {T : CType A R} (h : T.move_keeps_value) (v : Val) :
    ∃ left, T.move_ctor.run v = .ok (v, left) := by
  have hv := h v
  cases hr : T.move_ctor.run v with
  | error e => simp [hr, Except.map] at hv
  | ok p =>
    obtain ⟨v1, left⟩ := p
    simp only [hr, Except.map, Except.ok.injEq] at hv
    subst hv
    exact ⟨left, rfl⟩

theorem find_add_self (s : State) (m : Mem) (f : function) :
    (s.add m f).find f.addr = some f := by
  simp [State.find, State.add]

end basic

section construction

variable {A R : Type}

/-- Constructing a wrapper from a callable whose move constructor keeps the
value succeeds, and the wrapper calls into an object equal to the callable. -/
theorem from_callable_ok (E : Env A R) (m : Mem) (w : Nat) (t : TypeId) (func : Val)
    (hmove : (E.ty t).move_keeps_value)
    (halloc : E.fits t = false → E.alloc_ok m.allocs = true) :
    ∃ m1 f, function.from_callable E w t m func = .ok (m1, f) ∧ f.addr = w ∧
      f.storage.ops = .traits t ∧
      ∀ args, f.call E m1 args = .ret ((E.ty t).call func args) := by
  obtain ⟨left, hrun⟩ := move_keeps_run hmove func
  by_cases hf : E.fits t = true
  · simp only [function.from_callable, storage.from_callable, hf, hrun, if_true]
    refine ⟨_, _, rfl, rfl, rfl, ?_⟩
    simp [function.call, Ops.table, ops_traits.get_ops, hf, ops_traits_small.invoke,
      storage.get, storage.deref]
  · have hf0 : E.fits t = false := by simpa using hf
    have ha := halloc hf0
    simp only [function.from_callable, storage.from_callable, hf0, hrun,
      Mem.new, ha, Except.map, if_true]
    refine ⟨_, _, rfl, rfl, rfl, ?_⟩
    simp [function.call, Ops.table, ops_traits.get_ops, hf0, ops_traits_heap.invoke,
      storage.get, storage.deref, List.lookup, storage.set_dynamic, storage.default]

/-- C1 (as amended): for a callable `func` of a type whose move constructor keeps
the value, under either placement (the allocation succeeding under heap
placement), constructing a wrapper from it succeeds, invoking the wrapper
returns exactly what `func(args)` returns for every argument list, and the
invocation leaves the program state, hence the bound table, unchanged. -/
theorem invoke_constructed_returns (E : Env A R) (s : State) (w : Nat) (t : TypeId) (func : Val)
    (hfresh : s.find w = none)
    (hmove : (E.ty t).move_keeps_value)
    (halloc : E.fits t = false → E.alloc_ok s.mem.allocs = true) :
    ∃ s1 f, State.step E s (.construct_from w t func) = some s1 ∧ s1.find w = some f ∧
      f.storage.ops = .traits t ∧
      ∀ args, f.call E s1.mem args = .ret ((E.ty t).call func args) ∧
        State.step E s1 (.invoke w args) = some s1 := by
  obtain ⟨m1, f, hc, haddr, hops, hcall⟩ := from_callable_ok E s.mem w t func hmove halloc
  have hfind : (s.add m1 f).find w = some f := by
    rw [← haddr]; exact find_add_self s m1 f
  refine ⟨s.add m1 f, f, ?_, hfind, hops, ?_⟩
  · simp only [State.step, hfresh, hc]
  · intro args
    have h1 : f.call E (s.add m1 f).mem args = .ret ((E.ty t).call func args) := hcall args
    refine ⟨h1, ?_⟩
    simp only [State.step, hfind, h1]

/-- C1, an instance: a stateless callable returning 42, wrapped and invoked with
no arguments, yields 42. -/
theorem invoke_constructed_returns_witness :
    ∃ s1 f, State.step Example.env State.init (.construct_from 0 0 0) = some s1 ∧
      s1.find 0 = some f ∧ f.storage.ops = .traits 0 ∧
      ∀ args, f.call Example.env s1.mem args = .ret 42 ∧
        State.step Example.env s1 (.invoke 0 args) = some s1 :=
  invoke_constructed_returns Example.env State.init 0 0 0 (by decide) (fun _ => rfl)
    (by decide)

/-- C1 as stated fails: a callable whose move constructor changes its state
(here: counts the move) is moved into the wrapper, and the wrapper returns what
the moved-to object returns, not what the original returns. -/
theorem invoke_constructed_differs :
    (Example.env.ty 4).call 0 [] = 0 ∧
    ∃ m f, function.from_callable Example.env 0 4 Mem.init 0 = .ok (m, f) ∧
      f.call Example.env m [] = .ret 1 := by
  refine ⟨rfl, _, _, rfl, ?_⟩
  decide

end construction

section empty_and_move

variable {A R : Type}

/-- C2: a default-constructed wrapper is bound to the canonical empty table (its
bool conversion is false), `target<T>()` is null for every type `T`, and
invoking it with any arguments fails with `bad_function_call`, whose message is
"bad function call"; no value is returned. -/
theorem default_is_empty (E : Env A R) (m : Mem) (addr : Nat) :
    (function.default addr).storage.ops = Ops.empty ∧
    (function.default addr).to_bool = false ∧
    (∀ t, (function.default addr).target E t = Target.null) ∧
    (∀ args, (function.default addr).call E m args = Invoked.throw Exn.bad_function_call) ∧
    (∀ args r, (function.default addr).call E m args ≠ Invoked.ret r) ∧
    bad_function_call.what = "bad function call" := by
  refine ⟨rfl, rfl, ?_, ?_, ?_, rfl⟩
  · intro t
    simp [function.target, function.default, storage.default]
  · intro args
    rfl
  · intro args r h
    simp [function.call, function.default, storage.default, Ops.table, empty_ops,
      empty_ops_invoke] at h

end empty_and_move

section heap_lemmas

theorem lookup_mem {β : Type} (a : Nat) (c : β) (l : List (Nat × β)) (h : l.lookup a = some c) :
    (a, c) ∈ l := by
  induction l with
  | nil => simp at h
  | cons x xs ih =>
    obtain ⟨k, b⟩ := x
    by_cases hk : a = k
    · subst hk
      simp [List.lookup] at h
      simp [h]
    · have : (a == k) = false := by simpa using hk
      simp only [List.lookup, this] at h
      exact List.mem_cons_of_mem _ (ih h)

theorem lookup_filter_ne {β : Type} (a b : Nat) (l : List (Nat × β)) (hab : a ≠ b) :
    (l.filter (fun c => c.1 != b)).lookup a = l.lookup a := by
  induction l with
  | nil => rfl
  | cons x xs ih =>
    obtain ⟨k, y⟩ := x
    by_cases hk : k = b
    · subst hk
      have : (a == k) = false := by simpa using hab
      simp [List.filter, List.lookup, this, ih]
    · have h1 : (k != b) = true := by simpa using hk
      simp only [List.filter, h1, List.lookup, ih]

theorem lookup_filter_self {β : Type} (a : Nat) (l : List (Nat × β)) :
    (l.filter (fun c => c.1 != a)).lookup a = none := by
  induction l with
  | nil => rfl
  | cons x xs ih =>
    obtain ⟨k, y⟩ := x
    by_cases hk : k = a
    · subst hk
      simp [List.filter, ih]
    · have h1 : (k != a) = true := by simpa using hk
      have h2 : (a == k) = false := by simpa using fun h => hk h.symm
      simp only [List.filter, h1, List.lookup, h2, ih]

theorem lookup_map_ne {β : Type} (a b : Nat) (y : β) (l : List (Nat × β)) (hab : a ≠ b) :
    (l.map (fun c => if c.1 = b then (b, y) else c)).lookup a = l.lookup a := by
  induction l with
  | nil => rfl
  | cons x xs ih =>
    obtain ⟨k, z⟩ := x
    have hab2 : (a == b) = false := by simpa using hab
    by_cases hk : k = b
    · subst hk
      simp only [List.map_cons, if_true, List.lookup_cons, hab2, ih]
    · simp only [List.map_cons, hk, if_false, List.lookup_cons, ih]

theorem lookup_map_self {β : Type} (a : Nat) (y c : β) (l : List (Nat × β))
    (h : l.lookup a = some c) :
    (l.map (fun c => if c.1 = a then (a, y) else c)).lookup a = some y := by
  induction l with
  | nil => simp at h
  | cons x xs ih =>
    obtain ⟨k, z⟩ := x
    by_cases hk : k = a
    · subst hk
      simp only [List.map_cons, if_true, List.lookup_cons, beq_self_eq_true]
    · have h2 : (a == k) = false := by simpa using fun h => hk h.symm
      simp only [List.lookup_cons, h2] at h
      simp only [List.map_cons, hk, if_false, List.lookup_cons, h2, ih h]

theorem wf_lookup_lt {m : Mem} (hm : m.wf) {a : Nat} {c : TypeId × Val}
    (h : m.heap.lookup a = some c) : a < m.made.length :=
  hm (a, c) (lookup_mem a c m.heap h)

end heap_lemmas

/-! ## Evaluating the table entries on the three storage shapes -/

section eval

variable {A R : Type}

theorem table_destroy (E : Env A R) (o : Ops) : (Ops.table E o).destroy = Ops.destroy E o := by
  cases o with
  | empty => rfl
  | traits t =>
    by_cases hf : E.fits t = true <;> simp [Ops.table, ops_traits.get_ops, Ops.destroy, hf]

theorem invoke_empty (E : Env A R) (m : Mem) (s : storage) (args : A) :
    (Ops.table E Ops.empty).invoke m s args = Invoked.throw Exn.bad_function_call := rfl

theorem invoke_inline (E : Env A R) (m : Mem) {t : TypeId} (hf : E.fits t = true)
    (o : ObjId) (v : Val) (ops : Ops) (args : A) :
    (Ops.table E (Ops.traits t)).invoke m { buf := Buf.obj t o v, ops := ops } args
      = Invoked.ret ((E.ty t).call v args) := by
  simp [Ops.table, ops_traits.get_ops, hf, ops_traits_small.invoke, storage.get, storage.deref]

theorem invoke_heap (E : Env A R) (m : Mem) {t : TypeId} (hf : E.fits t = false)
    {a : ObjId} {v : Val} (hl : m.heap.lookup a = some (t, v)) (ops : Ops) (args : A) :
    (Ops.table E (Ops.traits t)).invoke m { buf := Buf.ptr (Ptr.heap a), ops := ops } args
      = Invoked.ret ((E.ty t).call v args) := by
  simp [Ops.table, ops_traits.get_ops, hf, ops_traits_heap.invoke, storage.get, storage.deref, hl]

theorem destroy_empty (E : Env A R) (m : Mem) (s : storage) :
    Ops.destroy E Ops.empty m s = some (m, s) := rfl

theorem destroy_inline (E : Env A R) (m : Mem) {t : TypeId} (hf : E.fits t = true)
    (o : ObjId) (v : Val) (ops : Ops) :
    Ops.destroy E (Ops.traits t) m { buf := Buf.obj t o v, ops := ops }
      = some ({ m with freed := m.freed ++ [(t, o)] }, { buf := Buf.obj t o v, ops := Ops.empty }) := by
  simp [Ops.destroy, hf, ops_traits_small.destroy, Mem.destroy_at, storage.get, storage.deref]

theorem destroy_heap (E : Env A R) (m : Mem) {t : TypeId} (hf : E.fits t = false)
    (a : ObjId) (ops : Ops) :
    Ops.destroy E (Ops.traits t) m { buf := Buf.ptr (Ptr.heap a), ops := ops }
      = some ({ m with heap := m.heap.filter (fun c => c.1 != a), freed := m.freed ++ [(t, a)] },
              { buf := Buf.ptr Ptr.null, ops := Ops.empty }) := by
  simp [Ops.destroy, hf, ops_traits_heap.destroy, Mem.delete, storage.get, storage.set_dynamic]

theorem copy_empty (E : Env A R) (m : Mem) (src dst : storage) :
    (Ops.table E Ops.empty).copy m src dst = Outcome.ok (m, { dst with ops := Ops.empty }) := rfl

theorem copy_inline (E : Env A R) (m : Mem) {t : TypeId} (hf : E.fits t = true)
    (o : ObjId) (v : Val) (ops : Ops) (dst : storage) {m1 : Mem} {dst1 : storage}
    (hd : Ops.destroy E dst.ops m dst = some (m1, dst1)) :
    (Ops.table E (Ops.traits t)).copy m { buf := Buf.obj t o v, ops := ops } dst
      = match (E.ty t).copy_ctor v with
        | .error e => Outcome.throw (Exn.thrown e) (m1, dst1)
        | .ok v1 =>
          Outcome.ok ({ m1 with made := m1.made ++ [t] },
            { buf := Buf.obj t m1.made.length v1, ops := ops }) := by
  simp only [Ops.table, ops_traits.get_ops, hf, if_true, ops_traits_small.copy, hd,
    storage.get, storage.deref]

theorem copy_heap (E : Env A R) (m : Mem) {t : TypeId} (hf : E.fits t = false)
    (a : ObjId) (ops : Ops) (dst : storage) {m1 : Mem} {dst1 : storage} {v : Val}
    (hd : Ops.destroy E dst.ops m dst = some (m1, dst1))
    (hl : m1.heap.lookup a = some (t, v)) :
    (Ops.table E (Ops.traits t)).copy m { buf := Buf.ptr (Ptr.heap a), ops := ops } dst
      = match m1.new E t ((E.ty t).copy_ctor v) with
        | .ub => Outcome.ub
        | .throw e m2 => Outcome.throw e (m2, dst1)
        | .ok (m2, p) => Outcome.ok (m2, { buf := Buf.ptr p, ops := ops }) := by
  simp only [Ops.table, ops_traits.get_ops, hf, Bool.false_eq_true, if_false,
    ops_traits_heap.copy, hd, storage.get, storage.deref, hl, if_true, storage.set_dynamic]

theorem move_empty (E : Env A R) (m : Mem) (src dst : storage) :
    (Ops.table E Ops.empty).move m src dst = some (m, src, { dst with ops := Ops.empty }) := rfl

theorem move_inline (E : Env A R) (m : Mem) {t : TypeId} (hf : E.fits t = true)
    (o : ObjId) (v : Val) (ops : Ops) (dst : storage) {m1 : Mem} {dst1 : storage}
    {v1 left : Val}
    (hd : Ops.destroy E dst.ops m dst = some (m1, dst1))
    (hrun : (E.ty t).move_ctor.run v = .ok (v1, left)) :
    (Ops.table E (Ops.traits t)).move m { buf := Buf.obj t o v, ops := ops } dst
      = some ({ m1 with made := m1.made ++ [t] },
          { buf := Buf.obj t o left, ops := Ops.empty },
          { buf := Buf.obj t m1.made.length v1, ops := ops }) := by
  simp only [Ops.table, ops_traits.get_ops, hf, if_true, ops_traits_small.move, hd,
    storage.get, storage.deref, hrun]

theorem move_heap (E : Env A R) (m : Mem) {t : TypeId} (hf : E.fits t = false)
    (a : ObjId) (ops : Ops) (dst : storage) {m1 : Mem} {dst1 : storage}
    (hd : Ops.destroy E dst.ops m dst = some (m1, dst1)) :
    (Ops.table E (Ops.traits t)).move m { buf := Buf.ptr (Ptr.heap a), ops := ops } dst
      = some (m1, { buf := Buf.ptr (Ptr.heap a), ops := Ops.empty },
          { buf := Buf.ptr (Ptr.heap a), ops := ops }) := by
  simp only [Ops.table, ops_traits.get_ops, hf, Bool.false_eq_true, if_false,
    ops_traits_heap.move, hd, storage.get, storage.set_dynamic]

theorem new_ok (E : Env A R) (m : Mem) (t : TypeId) (v : Val)
    (ha : E.alloc_ok m.allocs = true) :
    m.new E t (.ok v)
      = Outcome.ok ({ heap := (m.made.length, t, v) :: m.heap, made := m.made ++ [t],
                      freed := m.freed, allocs := m.allocs + 1 }, Ptr.heap m.made.length) := by
  simp [Mem.new, ha]

theorem new_error (E : Env A R) (m : Mem) (t : TypeId) (e : Nat)
    (ha : E.alloc_ok m.allocs = true) :
    m.new E t (.error e) = Outcome.throw (Exn.thrown e) { m with allocs := m.allocs + 1 } := by
  simp [Mem.new, ha]

theorem new_bad_alloc (E : Env A R) (m : Mem) (t : TypeId) (init : Except Nat Val)
    (ha : E.alloc_ok m.allocs = false) :
    m.new E t init = Outcome.throw Exn.bad_alloc { m with allocs := m.allocs + 1 } := by
  simp [Mem.new, ha]

end eval

section copying

variable {A R : Type}

theorem invoke_heap_lookup (E : Env A R) (m : Mem) {t : TypeId} (hf : E.fits t = false)
    (a : ObjId) (ops : Ops) (args : A) :
    (Ops.table E (Ops.traits t)).invoke m { buf := Buf.ptr (Ptr.heap a), ops := ops } args
      = match m.heap.lookup a with
        | some (t1, v) => if t1 = t then Invoked.ret ((E.ty t).call v args) else Invoked.ub
        | none => Invoked.ub := by
  simp only [Ops.table, ops_traits.get_ops, hf, Bool.false_eq_true, if_false,
    ops_traits_heap.invoke, storage.get, storage.deref]
  cases m.heap.lookup a with
  | none => rfl
  | some c =>
    obtain ⟨t1, v⟩ := c
    by_cases h : t1 = t <;> simp [h]

/-- C4 (as amended): for a wrapper `w1` holding a callable (inline or heap)
whose copy constructor succeeds and produces an object equal to its source
(the allocation succeeding under heap placement), copy construction succeeds;
`w1` and the new wrapper `w2` answer every argument list alike, `w1` is
unchanged, the two targets are distinct non-null objects, and the two are
independent: destroying either, or assigning a new state through the target
pointer of either, does not change the answers of the other. -/
theorem copy_ctor_independent (E : Env A R) (m : Mem) (w1 : function) (addr : Nat) (t : TypeId)
    (hops : w1.storage.ops = Ops.traits t)
    (hv : w1.storage.valid E m = true)
    (hm : m.wf)
    (haddr : addr ≠ w1.addr)
    (hcopy : (E.ty t).copy_keeps_value)
    (halloc : E.fits t = false → E.alloc_ok m.allocs = true) :
    ∃ m1 w2, function.copy_ctor E addr m w1 = Outcome.ok (m1, w2) ∧
      (∀ args, w2.call E m1 args = w1.call E m1 args) ∧
      (∀ args, w1.call E m1 args = w1.call E m args) ∧
      w1.storage.held E m1 = w1.storage.held E m ∧
      w1.target E t ≠ Target.null ∧ w2.target E t ≠ Target.null ∧
      w1.target E t ≠ w2.target E t ∧
      (∃ m2, w2.dtor E m1 = some m2 ∧ ∀ args, w1.call E m2 args = w1.call E m args) ∧
      (∃ m2, w1.dtor E m1 = some m2 ∧ ∀ args, w2.call E m2 args = w2.call E m1 args) ∧
      (∀ x, ∃ m2 w1b, w1.poke E t m1 x = some (m2, w1b) ∧
        (∀ args, w1b.call E m2 args = Invoked.ret ((E.ty t).call x args)) ∧
        ∀ args, w2.call E m2 args = w2.call E m1 args) ∧
      (∀ x, ∃ m2 w2b, w2.poke E t m1 x = some (m2, w2b) ∧
        (∀ args, w2b.call E m2 args = Invoked.ret ((E.ty t).call x args)) ∧
        ∀ args, w1.call E m2 args = w1.call E m1 args) := by
  obtain ⟨a1, ⟨buf, ops⟩⟩ := w1
  simp only at hops haddr
  subst hops
  by_cases hf : E.fits t = true
  · obtain ⟨o, v, hb⟩ := valid_inline rfl hf hv
    simp only at hb
    subst hb
    have hc := copy_inline E m hf o v (Ops.traits t) storage.default
      (destroy_empty E m storage.default)
    simp only [hcopy v] at hc
    simp only [function.copy_ctor, hc]
    refine ⟨_, _, rfl, ?_, ?_, ?_, ?_, ?_, ?_, ?_, ?_, ?_, ?_⟩
    · intro args
      simp only [function.call, invoke_inline E _ hf]
    · intro args
      simp only [function.call, invoke_inline E _ hf]
    · simp [storage.held, storage.get, storage.deref, hf]
    · simp [function.target, storage.get, hf]
    · simp [function.target, storage.get, hf]
    · simp [function.target, storage.get, hf]
      exact fun h => haddr h.symm
    · simp only [function.dtor, storage.dtor, table_destroy, destroy_inline E _ hf]
      exact ⟨_, rfl, fun args => by simp only [function.call, invoke_inline E _ hf]⟩
    · simp only [function.dtor, storage.dtor, table_destroy, destroy_inline E _ hf]
      exact ⟨_, rfl, fun args => by simp only [function.call, invoke_inline E _ hf]⟩
    · intro x
      simp only [function.poke, function.target, storage.get, hf, if_true]
      exact ⟨_, _, rfl, fun args => by simp only [function.call, invoke_inline E _ hf],
        fun args => by simp only [function.call, invoke_inline E _ hf]⟩
    · intro x
      simp only [function.poke, function.target, storage.get, hf, if_true]
      exact ⟨_, _, rfl, fun args => by simp only [function.call, invoke_inline E _ hf],
        fun args => by simp only [function.call, invoke_inline E _ hf]⟩
  · have hf0 : E.fits t = false := by simpa using hf
    obtain ⟨a, v, hb, hl⟩ := valid_heap rfl hf0 hv
    simp only at hb
    subst hb
    have hlt : a < m.made.length := wf_lookup_lt hm hl
    have hne : a ≠ m.made.length := Nat.ne_of_lt hlt
    have hne2 : (a == m.made.length) = false := by simpa using hne
    have hc := copy_heap E m hf0 a (Ops.traits t) storage.default
      (destroy_empty E m storage.default) hl
    simp only [hcopy v, new_ok E m t v (halloc hf0)] at hc
    simp only [function.copy_ctor, hc]
    have hl1 : List.lookup a ((m.made.length, t, v) :: m.heap) = some (t, v) := by
      simp only [List.lookup_cons, hne2, hl]
    have hl2 : List.lookup m.made.length ((m.made.length, t, v) :: m.heap) = some (t, v) := by
      simp only [List.lookup_cons, beq_self_eq_true]
    have hl4 : List.lookup a (List.filter (fun c => c.1 != m.made.length)
        ((m.made.length, t, v) :: m.heap)) = some (t, v) := by
      rw [lookup_filter_ne a m.made.length _ hne]; exact hl1
    have hl5 : List.lookup m.made.length (List.filter (fun c => c.1 != a)
        ((m.made.length, t, v) :: m.heap)) = some (t, v) := by
      rw [lookup_filter_ne m.made.length a _ (fun h => hne h.symm)]; exact hl2
    refine ⟨_, _, rfl, ?_, ?_, ?_, ?_, ?_, ?_, ?_, ?_, ?_, ?_⟩
    · intro args
      simp only [function.call, invoke_heap_lookup E _ hf0, hl1, hl2]
    · intro args
      simp only [function.call, invoke_heap_lookup E _ hf0, hl1, hl]
    · simp [storage.held, storage.get, storage.deref, hf0, hl1, hl]
    · simp [function.target, storage.get, hf0]
    · simp [function.target, storage.get, hf0]
    · simp [function.target, storage.get, hf0, hne]
    · simp only [function.dtor, storage.dtor, table_destroy, destroy_heap E _ hf0]
      refine ⟨_, rfl, fun args => ?_⟩
      simp only [function.call, invoke_heap_lookup E _ hf0, hl4, hl]
    · simp only [function.dtor, storage.dtor, table_destroy, destroy_heap E _ hf0]
      refine ⟨_, rfl, fun args => ?_⟩
      simp only [function.call, invoke_heap_lookup E _ hf0, hl5, hl2]
    · intro x
      simp only [function.poke, function.target, storage.get, hf0, hl1, if_true,
        Bool.false_eq_true, if_false]
      refine ⟨_, _, rfl, fun args => ?_, fun args => ?_⟩
      · have hl3 := lookup_map_self a (t, x) (t, v) _ hl1
        simp only [function.call, invoke_heap_lookup E _ hf0, hl3, if_true]
      · have hl3 : List.lookup m.made.length (List.map
            (fun c => if c.1 = a then (a, t, x) else c) ((m.made.length, t, v) :: m.heap))
            = some (t, v) := by
          rw [lookup_map_ne m.made.length a (t, x) _ (fun h => hne h.symm)]; exact hl2
        simp only [function.call, invoke_heap_lookup E _ hf0, hl3, hl2]
    · intro x
      simp only [function.poke, function.target, storage.get, hf0, hl2, if_true,
        Bool.false_eq_true, if_false]
      refine ⟨_, _, rfl, fun args => ?_, fun args => ?_⟩
      · have hl3 := lookup_map_self m.made.length (t, x) (t, v) _ hl2
        simp only [function.call, invoke_heap_lookup E _ hf0, hl3, if_true]
      · have hl3 : List.lookup a (List.map
            (fun c => if c.1 = m.made.length then (m.made.length, t, x) else c)
            ((m.made.length, t, v) :: m.heap)) = some (t, v) := by
          rw [lookup_map_ne a m.made.length (t, x) _ hne]; exact hl1
        simp only [function.call, invoke_heap_lookup E _ hf0, hl3, hl1]

/-- C4, an instance: copying a wrapper that holds a heap callable. -/
theorem copy_ctor_independent_witness :
    ∃ m1 w2, function.copy_ctor Example.env 12 Example.mem Example.w_heap = Outcome.ok (m1, w2) ∧
      (∀ args, w2.call Example.env m1 args = Example.w_heap.call Example.env m1 args) ∧
      (∀ args, Example.w_heap.call Example.env m1 args
        = Example.w_heap.call Example.env Example.mem args) ∧
      Example.w_heap.storage.held Example.env m1
        = Example.w_heap.storage.held Example.env Example.mem ∧
      Example.w_heap.target Example.env 2 ≠ Target.null ∧
      w2.target Example.env 2 ≠ Target.null ∧
      Example.w_heap.target Example.env 2 ≠ w2.target Example.env 2 ∧
      (∃ m2, w2.dtor Example.env m1 = some m2 ∧
        ∀ args, Example.w_heap.call Example.env m2 args
          = Example.w_heap.call Example.env Example.mem args) ∧
      (∃ m2, Example.w_heap.dtor Example.env m1 = some m2 ∧
        ∀ args, w2.call Example.env m2 args = w2.call Example.env m1 args) ∧
      (∀ x, ∃ m2 w1b, Example.w_heap.poke Example.env 2 m1 x = some (m2, w1b) ∧
        (∀ args, w1b.call Example.env m2 args
          = Invoked.ret ((Example.env.ty 2).call x args)) ∧
        ∀ args, w2.call Example.env m2 args = w2.call Example.env m1 args) ∧
      (∀ x, ∃ m2 w2b, w2.poke Example.env 2 m1 x = some (m2, w2b) ∧
        (∀ args, w2b.call Example.env m2 args
          = Invoked.ret ((Example.env.ty 2).call x args)) ∧
        ∀ args, Example.w_heap.call Example.env m2 args
          = Example.w_heap.call Example.env m1 args) :=
  copy_ctor_independent Example.env Example.mem Example.w_heap 12 2 rfl (by decide)
    (by unfold Mem.wf; decide) (by decide) (fun _ => rfl) (fun _ => rfl)

/-- C4 as stated fails: a callable whose copy constructor succeeds but changes
the state (here: counts the copy) makes the copy answer differently from the
original. -/
theorem copy_ctor_differs :
    ∃ s w1 w2, State.run Example.env State.init
        [Cmd.construct_from 0 5 7, Cmd.copy_construct 1 0] = some s ∧
      s.find 0 = some w1 ∧ s.find 1 = some w2 ∧
      w1.call Example.env s.mem [] = Invoked.ret 7 ∧
      w2.call Example.env s.mem [] = Invoked.ret 8 := by
  refine ⟨_, _, _, rfl, rfl, rfl, ?_, ?_⟩ <;> decide

end copying

section rollback

variable {A R : Type}

theorem deref_congr {m m1 : Mem} (h : m.heap = m1.heap) (s : storage) (t : TypeId) (p : Ptr) :
    s.deref m t p = s.deref m1 t p := by
  cases p <;> simp [storage.deref, h]

theorem valid_congr (E : Env A R) {m m1 : Mem} (h : m.heap = m1.heap) (s : storage) :
    s.valid E m = s.valid E m1 := by
  obtain ⟨buf, ops⟩ := s
  cases ops with
  | empty => rfl
  | traits t => simp only [storage.valid, deref_congr h]

theorem held_congr (E : Env A R) {m m1 : Mem} (h : m.heap = m1.heap) (s : storage) :
    s.held E m = s.held E m1 := by
  obtain ⟨buf, ops⟩ := s
  cases ops with
  | empty => rfl
  | traits t => simp only [storage.held, deref_congr h]

end rollback

section copy_assignment

variable {A R : Type}

end copy_assignment

section placement

variable {A R : Type}

/-- C6 fails when the source is empty: `a` holds a heap callable, `b` is empty;
after `a = std::move(b)` the wrapper `a` is bound to the empty table, but the
callable it held was not released: the release log is empty and the heap still
contains the object, which no wrapper owns any more. -/
theorem assign_move_from_empty_leaks :
    State.run Example.env State.init
        [Cmd.construct_from 0 2 5, Cmd.construct_empty 1, Cmd.move_assign 0 1]
      = some { mem := { heap := [(0, 2, 5)], made := [2], freed := [], allocs := 1 },
               ws := [{ addr := 1, storage := { buf := Buf.zero, ops := Ops.empty } },
                      { addr := 0, storage := { buf := Buf.ptr (Ptr.heap 0), ops := Ops.empty } }] } := by
  decide

/-- C7 fails on two runs after which every wrapper has been destroyed.  In the
first a heap callable is overwritten by move-assignment from an empty wrapper:
one object constructed, none released.  In the second an inline callable is
move-constructed into another wrapper: two objects constructed (the original
and the moved-to one), one released, the moved-from original never. -/
theorem destroyed_wrappers_leak :
    (State.run Example.env State.init
        [Cmd.construct_from 0 2 5, Cmd.construct_empty 1, Cmd.move_assign 0 1,
         Cmd.destroy 0, Cmd.destroy 1]).map
        (fun s => (s.ws, s.mem.constructed 2, s.mem.released 2)) = some ([], 1, 0) ∧
    (State.run Example.env State.init
        [Cmd.construct_from 0 1 5, Cmd.move_construct 1 0, Cmd.destroy 0, Cmd.destroy 1]).map
        (fun s => (s.ws, s.mem.constructed 1, s.mem.released 1)) = some ([], 2, 1) := by
  decide

theorem fits_iff (E : Env A R) (t : TypeId) :
    E.fits t = true ↔
      (E.ty t).sizeof ≤ E.SIZE ∧ E.ALIGN % (E.ty t).alignof = 0 ∧
        (E.ty t).move_ctor.is_nothrow = true := by
  simp [Env.fits, fits_small_buf, and_assoc]

/-- C9: `fits_small_buf<T>` holds iff the size of `T` is at most the word size,
the word alignment is a multiple of the alignment of `T`, and the move
constructor of `T` cannot throw.  With both alignments powers of two, heap
placement is selected iff the size exceeds the word size, or the alignment
exceeds the word alignment, or the move constructor can throw.  The converting
constructor of the storage and `get` take the same decision: the storage it
builds is bound to the table of `T`, holds an object under inline placement and
a heap address under heap placement, and `get` reads back the object the
constructor wrote. -/
theorem placement_boundary (E : Env A R) (t : TypeId) (j k : Nat)
    (ha : (E.ty t).alignof = 2 ^ j) (hA : E.ALIGN = 2 ^ k) :
    (fits_small_buf E.SIZE E.ALIGN (E.ty t) = true ↔
      (E.ty t).sizeof ≤ E.SIZE ∧ (E.ty t).alignof ∣ E.ALIGN ∧
        (E.ty t).move_ctor.is_nothrow = true) ∧
    (fits_small_buf E.SIZE E.ALIGN (E.ty t) = false ↔
      E.SIZE < (E.ty t).sizeof ∨ E.ALIGN < (E.ty t).alignof ∨
        (E.ty t).move_ctor.is_nothrow = false) ∧
    (∀ m func,
      match storage.from_callable E t m func with
      | .ok (m1, s) =>
        s.ops = Ops.traits t ∧
        (if E.fits t = true then ∃ o v, s.buf = Buf.obj t o v
          else ∃ a, s.buf = Buf.ptr (Ptr.heap a)) ∧
        ∃ o v, s.deref m1 t (s.get E t) = some (o, v) ∧
          ((E.ty t).move_ctor.run func).map Prod.fst = .ok v
      | .throw _ _ => True
      | .ub => False) := by
  have hdvd : E.ALIGN % (E.ty t).alignof = 0 ↔ (E.ty t).alignof ∣ E.ALIGN :=
    Nat.dvd_iff_mod_eq_zero.symm
  have hle : (E.ty t).alignof ∣ E.ALIGN ↔ ¬ E.ALIGN < (E.ty t).alignof := by
    rw [ha, hA, Nat.pow_dvd_pow_iff_le_right (by norm_num), Nat.pow_lt_pow_iff_right (by norm_num)]
    omega
  have h1 := fits_iff E t
  simp only [Env.fits] at h1
  refine ⟨?_, ?_, ?_⟩
  · rw [h1, hdvd]
  · rw [← Bool.not_eq_true, h1, hdvd, hle]
    constructor
    · intro h
      by_cases h2 : E.SIZE < (E.ty t).sizeof
      · exact Or.inl h2
      · by_cases h3 : E.ALIGN < (E.ty t).alignof
        · exact Or.inr (Or.inl h3)
        · refine Or.inr (Or.inr ?_)
          cases h4 : (E.ty t).move_ctor.is_nothrow with
          | false => rfl
          | true => exact absurd ⟨Nat.le_of_not_lt h2, h3, h4⟩ h
    · rintro (h | h | h) ⟨h2, h3, h4⟩
      · omega
      · exact h3 h
      · rw [h] at h4; cases h4
  · intro m func
    by_cases hf : E.fits t = true
    · simp only [storage.from_callable, hf, if_true]
      cases hr : (E.ty t).move_ctor.run func with
      | error e => trivial
      | ok p =>
        obtain ⟨v, left⟩ := p
        simp [storage.get, storage.deref, hf, Except.map]
    · have hf0 : E.fits t = false := by simpa using hf
      simp only [storage.from_callable, hf0, Bool.false_eq_true, if_false, Mem.new]
      by_cases hal : E.alloc_ok m.allocs = true
      · cases hr : (E.ty t).move_ctor.run func with
        | error e => simp [hal, Except.map]
        | ok p =>
          obtain ⟨v, left⟩ := p
          simp [hal, Except.map, storage.get, storage.deref, hf0, storage.set_dynamic,
            storage.default]
      · simp [hal]

/-- C9, an instance: a one-byte type aligned to sixteen bytes on a platform with
eight-byte words. -/
theorem placement_boundary_witness :
    (fits_small_buf Example.env.SIZE Example.env.ALIGN (Example.env.ty 7) = true ↔
      (Example.env.ty 7).sizeof ≤ Example.env.SIZE ∧
        (Example.env.ty 7).alignof ∣ Example.env.ALIGN ∧
        (Example.env.ty 7).move_ctor.is_nothrow = true) ∧
    (fits_small_buf Example.env.SIZE Example.env.ALIGN (Example.env.ty 7) = false ↔
      Example.env.SIZE < (Example.env.ty 7).sizeof ∨
        Example.env.ALIGN < (Example.env.ty 7).alignof ∨
        (Example.env.ty 7).move_ctor.is_nothrow = false) ∧
    (∀ m func,
      match storage.from_callable Example.env 7 m func with
      | .ok (m1, s) =>
        s.ops = Ops.traits 7 ∧
        (if Example.env.fits 7 = true then ∃ o v, s.buf = Buf.obj 7 o v
          else ∃ a, s.buf = Buf.ptr (Ptr.heap a)) ∧
        ∃ o v, s.deref m1 7 (s.get Example.env 7) = some (o, v) ∧
          ((Example.env.ty 7).move_ctor.run func).map Prod.fst = .ok v
      | .throw _ _ => True
      | .ub => False) :=
  placement_boundary Example.env 7 4 3 rfl rfl

/-- C10: constructing a wrapper from a callable of type `T` makes exactly one
allocation request when `T` is heap-placed and none when `T` is inline-placed,
whether the construction completes or throws; it has no undefined behaviour. -/
theorem from_callable_allocs (E : Env A R) (addr : Nat) (t : TypeId) (m : Mem) (func : Val) :
    match function.from_callable E addr t m func with
    | .ok (m1, _) => m1.allocs = m.allocs + (if E.fits t = true then 0 else 1)
    | .throw _ m1 => m1.allocs = m.allocs + (if E.fits t = true then 0 else 1)
    | .ub => False := by
  by_cases hf : E.fits t = true
  · simp only [function.from_callable, storage.from_callable, hf, if_true]
    cases (E.ty t).move_ctor.run func with
    | error e => simp
    | ok p => simp
  · have hf0 : E.fits t = false := by simpa using hf
    simp only [function.from_callable, storage.from_callable, hf0, Bool.false_eq_true, if_false,
      Mem.new]
    by_cases hal : E.alloc_ok m.allocs = true
    · cases (E.ty t).move_ctor.run func with
      | error e => simp [hal, Except.map]
      | ok p => simp [hal, Except.map]
    · simp [hal]

end placement

/-! ## Ownership: goodness, separation and frames -/

section ownership

variable {A R : Type}

theorem good_of_empty (E : Env A R) (m : Mem) {s : storage} (h : s.ops = Ops.empty) :
    s.good E m := by
  obtain ⟨buf, ops⟩ := s
  simp only at h
  subst h
  exact ⟨rfl, fun o v hh => by simp [storage.held] at hh⟩

theorem held_of_empty (E : Env A R) (m : Mem) {s : storage} (h : s.ops = Ops.empty) :
    s.held E m = none := by
  obtain ⟨buf, ops⟩ := s
  simp only at h
  subst h
  rfl

theorem sep_of_empty_left (E : Env A R) (m : Mem) {s : storage} (x : storage)
    (h : s.ops = Ops.empty) : s.sep E m x := by
  intro o v o1 v1 hs
  rw [held_of_empty E m h] at hs
  cases hs

theorem sep_of_empty_right (E : Env A R) (m : Mem) (s : storage) {x : storage}
    (h : x.ops = Ops.empty) : s.sep E m x := by
  intro o v o1 v1 _ hx
  rw [held_of_empty E m h] at hx
  cases hx

theorem sep_symm {E : Env A R} {m : Mem} {s x : storage} (h : s.sep E m x) : x.sep E m s :=
  fun o v o1 v1 hx hs heq => h o1 v1 o v hs hx heq.symm

theorem ext_refl (m : Mem) : m.ext m [] :=
  ⟨Nat.le_refl _, by simp, fun _ _ _ => rfl⟩

theorem ext_trans {m m1 m2 : Mem} {r1 r2 : List ObjId} (h1 : m.ext m1 r1) (h2 : m1.ext m2 r2) :
    m.ext m2 (r1 ++ r2) := by
  obtain ⟨hm1, hf1, hh1⟩ := h1
  obtain ⟨hm2, hf2, hh2⟩ := h2
  refine ⟨Nat.le_trans hm1 hm2, ?_, ?_⟩
  · rw [hf2, hf1, List.append_assoc]
  · intro a ha hr
    simp only [List.mem_append, not_or] at hr
    rw [hh2 a (Nat.lt_of_lt_of_le ha hm1) hr.2, hh1 a ha hr.1]

/-- The object a storage is bound to is found through its own buffer or through
the heap cell at its own identity. -/
theorem held_eq_of_lookup (E : Env A R) {m m1 : Mem} (x : storage)
    (h : ∀ o v, x.held E m = some (o, v) → m1.heap.lookup o = m.heap.lookup o)
    (hv : x.valid E m = true) : x.held E m1 = x.held E m := by
  obtain ⟨buf, ops⟩ := x
  cases ops with
  | empty => rfl
  | traits t =>
    simp only [storage.held, storage.valid] at h hv ⊢
    generalize storage.get E t { buf := buf, ops := Ops.traits t } = p at h hv ⊢
    cases p with
    | null => rfl
    | wild => rfl
    | buf => rfl
    | heap a =>
      simp only [storage.deref] at h hv ⊢
      cases hl : m.heap.lookup a with
      | none => simp [hl] at hv
      | some c =>
        obtain ⟨t1, v⟩ := c
        by_cases ht : t1 = t
        · subst ht
          have := h a v (by simp [hl])
          rw [this, hl]
        · simp [hl, ht] at hv

theorem good_ext {E : Env A R} {m m1 : Mem} {rel : List ObjId} {x : storage}
    (hg : x.good E m) (he : m.ext m1 rel)
    (hr : ∀ o v, x.held E m = some (o, v) → o ∉ rel) :
    x.good E m1 ∧ x.held E m1 = x.held E m := by
  obtain ⟨hv, hb⟩ := hg
  obtain ⟨hmade, hfreed, hheap⟩ := he
  have hheld : x.held E m1 = x.held E m :=
    held_eq_of_lookup E x (fun o v ho => hheap o (hb o v ho).1 (hr o v ho)) hv
  refine ⟨⟨?_, ?_⟩, hheld⟩
  · obtain ⟨buf, ops⟩ := x
    cases ops with
    | empty => rfl
    | traits t =>
      simp only [storage.held, storage.valid] at hheld hv ⊢
      rw [hheld]; exact hv
  · intro o v ho
    rw [hheld] at ho
    refine ⟨Nat.lt_of_lt_of_le (hb o v ho).1 hmade, ?_⟩
    rw [hfreed, List.mem_append, not_or]
    exact ⟨(hb o v ho).2, hr o v ho⟩

theorem frame_of_ext {E : Env A R} {m m1 : Mem} {rel : List ObjId} {olds news : List storage}
    (he : m.ext m1 rel)
    (hrel : ∀ o ∈ rel, origin E m olds o)
    (hnews : ∀ s ∈ news, ∀ o v, s.held E m1 = some (o, v) → origin E m olds o) :
    frame E m m1 olds news := by
  intro x hx hsep
  have hnot : ∀ o v, x.held E m = some (o, v) → o ∉ rel := by
    intro o v ho hin
    rcases hrel o hin with hfresh | ⟨s, hs, v1, hv1⟩
    · exact absurd (hx.2 o v ho).1 (Nat.not_lt.mpr hfresh)
    · exact hsep s hs o v1 o v hv1 ho rfl
  obtain ⟨hg, hheld⟩ := good_ext hx he hnot
  refine ⟨hg, hheld, ?_⟩
  intro s hs o v o1 v1 hso hxo
  rw [hheld] at hxo
  rcases hnews s hs o v hso with hfresh | ⟨s0, hs0, v0, hv0⟩
  · exact fun heq => absurd (heq ▸ (hx.2 o1 v1 hxo).1) (Nat.not_lt.mpr hfresh)
  · exact hsep s0 hs0 o v0 o1 v1 hv0 hxo

theorem ok_of_ext {m m1 : Mem} {rel : List ObjId} (hm : m.ok) (he : m.ext m1 rel)
    (hn : rel.Nodup) (hr : ∀ o ∈ rel, o ∉ m.released_ids ∧ o < m1.made.length) : m1.ok := by
  obtain ⟨hnd, hb⟩ := hm
  obtain ⟨hmade, hfreed, _⟩ := he
  refine ⟨?_, ?_⟩
  · rw [hfreed, List.nodup_append]
    exact ⟨hnd, hn, fun o h1 h2 => (hr o h2).1 h1⟩
  · intro o ho
    rw [hfreed, List.mem_append] at ho
    rcases ho with h | h
    · exact Nat.lt_of_lt_of_le (hb o h) hmade
    · exact (hr o h).2

theorem frame_refl (E : Env A R) (m : Mem) (olds : List storage) : frame E m m olds olds :=
  fun _ hx hsep => ⟨hx, rfl, hsep⟩

theorem frame_nil (E : Env A R) (m : Mem) (olds : List storage) : frame E m m olds [] :=
  fun _ hx _ => ⟨hx, rfl, fun _ h => absurd h (List.not_mem_nil _)⟩

theorem released_ids_append (m : Mem) (t : TypeId) (o : ObjId) (h : List (ObjId × TypeId × Val))
    (n : Nat) :
    Mem.released_ids { heap := h, made := m.made, freed := m.freed ++ [(t, o)], allocs := n }
      = m.released_ids ++ [o] := by
  simp [Mem.released_ids]

/-- Destroying a good storage through its table: the storage ends empty, and
the only object released is the one it held. -/
theorem destroy_spec (E : Env A R) (m : Mem) (s : storage) (hm : m.ok) (hg : s.good E m) :
    ∃ m1 s1 rel, Ops.destroy E s.ops m s = some (m1, s1) ∧ s1.ops = Ops.empty ∧ m1.ok ∧
      m.ext m1 rel ∧ m1.made = m.made ∧
      ∀ o ∈ rel, ∃ v, s.held E m = some (o, v) := by
  obtain ⟨buf, ops⟩ := s
  cases ops with
  | empty =>
    exact ⟨m, _, [], destroy_empty E m _, rfl, hm, ext_refl m, rfl,
      fun o h => absurd h (List.not_mem_nil _)⟩
  | traits t =>
    by_cases hf : E.fits t = true
    · obtain ⟨o, v, hb⟩ := valid_inline rfl hf hg.1
      simp only at hb
      subst hb
      have hheld : storage.held E m { buf := Buf.obj t o v, ops := Ops.traits t } = some (o, v) := by
        simp [storage.held, storage.get, storage.deref, hf]
      have he : m.ext { m with freed := m.freed ++ [(t, o)] } [o] :=
        ⟨Nat.le_refl _, released_ids_append m t o _ _, fun _ _ _ => rfl⟩
      refine ⟨_, _, [o], destroy_inline E m hf o v _, rfl, ?_, he, rfl, ?_⟩
      · refine ok_of_ext hm he (List.nodup_singleton o) ?_
        intro o1 ho1
        rw [List.mem_singleton] at ho1
        subst ho1
        exact ⟨(hg.2 o1 v hheld).2, (hg.2 o1 v hheld).1⟩
      · intro o1 ho1
        rw [List.mem_singleton] at ho1
        subst ho1
        exact ⟨v, hheld⟩
    · have hf0 : E.fits t = false := by simpa using hf
      obtain ⟨a, v, hb, hl⟩ := valid_heap rfl hf0 hg.1
      simp only at hb
      subst hb
      have hheld : storage.held E m { buf := Buf.ptr (Ptr.heap a), ops := Ops.traits t }
          = some (a, v) := by
        simp [storage.held, storage.get, storage.deref, hf0, hl]
      have he : m.ext { m with heap := m.heap.filter (fun c => c.1 != a),
                               freed := m.freed ++ [(t, a)] } [a] := by
        refine ⟨Nat.le_refl _, released_ids_append m t a _ _, ?_⟩
        intro a1 _ hne
        rw [List.mem_singleton] at hne
        exact lookup_filter_ne a1 a m.heap hne
      refine ⟨_, _, [a], destroy_heap E m hf0 a _, rfl, ?_, he, rfl, ?_⟩
      · refine ok_of_ext hm he (List.nodup_singleton a) ?_
        intro o1 ho1
        rw [List.mem_singleton] at ho1
        subst ho1
        exact ⟨(hg.2 o1 v hheld).2, (hg.2 o1 v hheld).1⟩
      · intro o1 ho1
        rw [List.mem_singleton] at ho1
        subst ho1
        exact ⟨v, hheld⟩

end ownership

section table_specs

variable {A R : Type}

theorem ext_made (md : Mem) (t : TypeId) : md.ext { md with made := md.made ++ [t] } [] :=
  ⟨by simp, by simp [Mem.released_ids], fun _ _ _ => rfl⟩

theorem ext_allocs (md : Mem) : md.ext { md with allocs := md.allocs + 1 } [] :=
  ⟨Nat.le_refl _, by simp [Mem.released_ids], fun _ _ _ => rfl⟩

theorem ext_new (md : Mem) (t : TypeId) (v : Val) :
    md.ext { heap := (md.made.length, t, v) :: md.heap, made := md.made ++ [t],
             freed := md.freed, allocs := md.allocs + 1 } [] := by
  refine ⟨by simp, by simp [Mem.released_ids], ?_⟩
  intro a ha _
  have : (a == md.made.length) = false := by simpa using Nat.ne_of_lt ha
  simp only [List.lookup_cons, this]

theorem ok_of_ext_nil {m m1 : Mem} (hm : m.ok) (he : m.ext m1 []) : m1.ok :=
  ok_of_ext hm he List.nodup_nil (fun _ h => absurd h (List.not_mem_nil _))

/-- A new object constructed in place in a buffer. -/
theorem fresh_inline (E : Env A R) (md : Mem) (hm : md.ok) {t : TypeId} (hf : E.fits t = true)
    (v : Val) :
    storage.good E { md with made := md.made ++ [t] }
        { buf := Buf.obj t md.made.length v, ops := Ops.traits t } ∧
      storage.held E { md with made := md.made ++ [t] }
        { buf := Buf.obj t md.made.length v, ops := Ops.traits t } = some (md.made.length, v) := by
  have hheld : storage.held E { md with made := md.made ++ [t] }
      { buf := Buf.obj t md.made.length v, ops := Ops.traits t } = some (md.made.length, v) := by
    simp [storage.held, storage.get, storage.deref, hf]
  refine ⟨⟨?_, ?_⟩, hheld⟩
  · simp [storage.valid, storage.get, storage.deref, hf]
  · intro o v1 ho
    rw [hheld] at ho
    simp only [Option.some.injEq, Prod.mk.injEq] at ho
    obtain ⟨rfl, _⟩ := ho
    refine ⟨by simp, ?_⟩
    intro hin
    exact Nat.lt_irrefl _ (hm.2 _ hin)

/-- A new object constructed on the heap, and the pointer to it stored in a buffer. -/
theorem fresh_heap (E : Env A R) (md : Mem) (hm : md.ok) {t : TypeId} (hf : E.fits t = false)
    (v : Val) :
    storage.good E { heap := (md.made.length, t, v) :: md.heap, made := md.made ++ [t],
                     freed := md.freed, allocs := md.allocs + 1 }
        { buf := Buf.ptr (Ptr.heap md.made.length), ops := Ops.traits t } ∧
      storage.held E { heap := (md.made.length, t, v) :: md.heap, made := md.made ++ [t],
                       freed := md.freed, allocs := md.allocs + 1 }
        { buf := Buf.ptr (Ptr.heap md.made.length), ops := Ops.traits t }
        = some (md.made.length, v) := by
  have hheld : storage.held E { heap := (md.made.length, t, v) :: md.heap,
                                made := md.made ++ [t], freed := md.freed,
                                allocs := md.allocs + 1 }
      { buf := Buf.ptr (Ptr.heap md.made.length), ops := Ops.traits t }
      = some (md.made.length, v) := by
    simp [storage.held, storage.get, storage.deref, hf]
  refine ⟨⟨?_, ?_⟩, hheld⟩
  · simp [storage.valid, storage.get, storage.deref, hf]
  · intro o v1 ho
    rw [hheld] at ho
    simp only [Option.some.injEq, Prod.mk.injEq] at ho
    obtain ⟨rfl, _⟩ := ho
    refine ⟨by simp, ?_⟩
    intro hin
    exact Nat.lt_irrefl _ (hm.2 _ hin)

theorem origin_fresh (E : Env A R) {m md : Mem} (olds : List storage) (h : md.made = m.made) :
    origin E m olds md.made.length :=
  Or.inl (by rw [h])

/-- The table move of a good storage into a good storage that holds a different
object: the source ends empty, the target is good, and all other storages are
left alone. -/
theorem move_spec (E : Env A R) (m : Mem) (src dst : storage) (hm : m.ok)
    (hs : src.good E m) (hd : dst.good E m) (hsep : src.sep E m dst) :
    ∃ m1 src1 dst1, (Ops.table E src.ops).move m src dst = some (m1, src1, dst1) ∧
      src1.ops = Ops.empty ∧ m1.ok ∧ dst1.good E m1 ∧ frame E m m1 [src, dst] [dst1] := by
  obtain ⟨md, dstd, rel, hdes, hde, hmd, hext, hmade, hrel⟩ := destroy_spec E m dst hm hd
  have hrelo : ∀ o ∈ rel, origin E m [src, dst] o := fun o ho =>
    Or.inr ⟨dst, by simp, hrel o ho⟩
  obtain ⟨buf, ops⟩ := src
  cases ops with
  | empty =>
    refine ⟨m, _, _, move_empty E m _ _, rfl, hm, good_of_empty E m rfl, ?_⟩
    refine frame_of_ext (ext_refl m) (fun o h => absurd h (List.not_mem_nil _)) ?_
    intro s hs1 o v ho
    rw [List.mem_singleton] at hs1
    subst hs1
    rw [held_of_empty E m rfl] at ho
    cases ho
  | traits t =>
    by_cases hf : E.fits t = true
    · obtain ⟨o, v, hb⟩ := valid_inline rfl hf hs.1
      simp only at hb
      subst hb
      obtain ⟨⟨v1, left⟩, hrun⟩ := fits_run_ok hf v
      obtain ⟨hg1, hh1⟩ := fresh_inline E md hmd hf v1
      have hext1 : m.ext { md with made := md.made ++ [t] } rel := by
        have := ext_trans hext (ext_made md t)
        rwa [List.append_nil] at this
      refine ⟨_, _, _, move_inline E m hf o v _ dst hdes hrun, rfl,
        ok_of_ext_nil hmd (ext_made md t), hg1, ?_⟩
      refine frame_of_ext hext1 hrelo ?_
      intro s hs1 o1 v2 ho
      rw [List.mem_singleton] at hs1
      subst hs1
      rw [hh1] at ho
      simp only [Option.some.injEq, Prod.mk.injEq] at ho
      obtain ⟨rfl, _⟩ := ho
      exact origin_fresh E _ hmade
    · have hf0 : E.fits t = false := by simpa using hf
      obtain ⟨a, v, hb, hl⟩ := valid_heap rfl hf0 hs.1
      simp only at hb
      subst hb
      have hheld : storage.held E m { buf := Buf.ptr (Ptr.heap a), ops := Ops.traits t }
          = some (a, v) := by
        simp [storage.held, storage.get, storage.deref, hf0, hl]
      have hnot : ∀ o v1, storage.held E m { buf := Buf.ptr (Ptr.heap a), ops := Ops.traits t }
          = some (o, v1) → o ∉ rel := by
        intro o v1 ho hin
        obtain ⟨v2, hv2⟩ := hrel o hin
        exact hsep o v1 o v2 ho hv2 rfl
      obtain ⟨hg1, hh1⟩ := good_ext hs hext hnot
      refine ⟨_, _, _, move_heap E m hf0 a _ dst hdes, rfl, hmd, hg1, ?_⟩
      refine frame_of_ext hext hrelo ?_
      intro s hs1 o1 v2 ho
      rw [List.mem_singleton] at hs1
      subst hs1
      rw [hh1] at ho
      exact Or.inr ⟨_, by simp, v2, ho⟩

end table_specs

section table_specs2

variable {A R : Type}

/-- The table copy from a good storage into a good storage that holds a
different object: when it completes the target is good and holds a new object;
when it throws the target is empty; all other storages, the source among them,
are left alone. -/
theorem copy_spec (E : Env A R) (m : Mem) (src dst : storage) (hm : m.ok)
    (hs : src.good E m) (hd : dst.good E m) (hsep : src.sep E m dst) :
    match (Ops.table E src.ops).copy m src dst with
    | .ok (m1, dst1) => m1.ok ∧ dst1.good E m1 ∧ frame E m m1 [dst] [dst1]
    | .throw _ (m1, dst1) => dst1.ops = Ops.empty ∧ m1.ok ∧ frame E m m1 [dst] []
    | .ub => False := by
  obtain ⟨md, dstd, rel, hdes, hde, hmd, hext, hmade, hrel⟩ := destroy_spec E m dst hm hd
  have hrelo : ∀ o ∈ rel, origin E m [dst] o := fun o ho =>
    Or.inr ⟨dst, by simp, hrel o ho⟩
  have hnil : ∀ s ∈ ([] : List storage), ∀ o v, s.held E md = some (o, v) → origin E m [dst] o :=
    fun s h => absurd h (List.not_mem_nil _)
  obtain ⟨buf, ops⟩ := src
  cases ops with
  | empty =>
    rw [copy_empty]
    refine ⟨hm, good_of_empty E m rfl, ?_⟩
    refine frame_of_ext (ext_refl m) (fun o h => absurd h (List.not_mem_nil _)) ?_
    intro s hs1 o v ho
    rw [List.mem_singleton] at hs1
    subst hs1
    rw [held_of_empty E m rfl] at ho
    cases ho
  | traits t =>
    by_cases hf : E.fits t = true
    · obtain ⟨o, v, hb⟩ := valid_inline rfl hf hs.1
      simp only at hb
      subst hb
      rw [copy_inline E m hf o v _ dst hdes]
      cases hcc : (E.ty t).copy_ctor v with
      | error e =>
        exact ⟨hde, hmd, frame_of_ext hext hrelo (fun s h => absurd h (List.not_mem_nil _))⟩
      | ok v1 =>
        obtain ⟨hg1, hh1⟩ := fresh_inline E md hmd hf v1
        have hext1 : m.ext { md with made := md.made ++ [t] } rel := by
          have := ext_trans hext (ext_made md t)
          rwa [List.append_nil] at this
        refine ⟨ok_of_ext_nil hmd (ext_made md t), hg1, ?_⟩
        refine frame_of_ext hext1 hrelo ?_
        intro s hs1 o1 v2 ho
        rw [List.mem_singleton] at hs1
        subst hs1
        rw [hh1] at ho
        simp only [Option.some.injEq, Prod.mk.injEq] at ho
        obtain ⟨rfl, _⟩ := ho
        exact origin_fresh E _ hmade
    · have hf0 : E.fits t = false := by simpa using hf
      obtain ⟨a, v, hb, hl⟩ := valid_heap rfl hf0 hs.1
      simp only at hb
      subst hb
      have hheld : storage.held E m { buf := Buf.ptr (Ptr.heap a), ops := Ops.traits t }
          = some (a, v) := by
        simp [storage.held, storage.get, storage.deref, hf0, hl]
      have hnot : a ∉ rel := by
        intro hin
        obtain ⟨v2, hv2⟩ := hrel a hin
        exact hsep a v a v2 hheld hv2 rfl
      have hl1 : md.heap.lookup a = some (t, v) := by
        rw [hext.2.2 a (hs.2 a v hheld).1 hnot]; exact hl
      rw [copy_heap E m hf0 a _ dst hdes hl1]
      by_cases hal : E.alloc_ok md.allocs = true
      · cases hcc : (E.ty t).copy_ctor v with
        | error e =>
          rw [new_error E md t e hal]
          have hext1 : m.ext { md with allocs := md.allocs + 1 } rel := by
            have := ext_trans hext (ext_allocs md)
            rwa [List.append_nil] at this
          exact ⟨hde, ok_of_ext_nil hmd (ext_allocs md),
            frame_of_ext hext1 hrelo (fun s h => absurd h (List.not_mem_nil _))⟩
        | ok v1 =>
          rw [new_ok E md t v1 hal]
          obtain ⟨hg1, hh1⟩ := fresh_heap E md hmd hf0 v1
          have hext1 := ext_trans hext (ext_new md t v1)
          rw [List.append_nil] at hext1
          refine ⟨ok_of_ext_nil hmd (ext_new md t v1), hg1, ?_⟩
          refine frame_of_ext hext1 hrelo ?_
          intro s hs1 o1 v2 ho
          rw [List.mem_singleton] at hs1
          subst hs1
          rw [hh1] at ho
          simp only [Option.some.injEq, Prod.mk.injEq] at ho
          obtain ⟨rfl, _⟩ := ho
          exact origin_fresh E _ hmade
      · have hal0 : E.alloc_ok md.allocs = false := by simpa using hal
        rw [new_bad_alloc E md t _ hal0]
        have hext1 : m.ext { md with allocs := md.allocs + 1 } rel := by
          have := ext_trans hext (ext_allocs md)
          rwa [List.append_nil] at this
        exact ⟨hde, ok_of_ext_nil hmd (ext_allocs md),
          frame_of_ext hext1 hrelo (fun s h => absurd h (List.not_mem_nil _))⟩

/-- The converting constructor of a storage: when it completes the storage is
good and holds a new object; no other storage is touched. -/
theorem from_callable_spec (E : Env A R) (t : TypeId) (m : Mem) (func : Val) (hm : m.ok) :
    match storage.from_callable E t m func with
    | .ok (m1, s) => m1.ok ∧ s.good E m1 ∧ frame E m m1 [] [s]
    | .throw _ m1 => m1.ok ∧ frame E m m1 [] []
    | .ub => False := by
  have hno : ∀ o ∈ ([] : List ObjId), origin E m [] o := fun o h => absurd h (List.not_mem_nil _)
  by_cases hf : E.fits t = true
  · simp only [storage.from_callable, hf, if_true]
    cases hr : (E.ty t).move_ctor.run func with
    | error e => exact ⟨hm, frame_nil E m []⟩
    | ok p =>
      obtain ⟨v, left⟩ := p
      obtain ⟨hg1, hh1⟩ := fresh_inline E m hm hf v
      refine ⟨ok_of_ext_nil hm (ext_made m t), hg1, ?_⟩
      refine frame_of_ext (ext_made m t) hno ?_
      intro s hs1 o1 v2 ho
      rw [List.mem_singleton] at hs1
      subst hs1
      rw [hh1] at ho
      simp only [Option.some.injEq, Prod.mk.injEq] at ho
      obtain ⟨rfl, _⟩ := ho
      exact Or.inl (Nat.le_refl _)
  · have hf0 : E.fits t = false := by simpa using hf
    simp only [storage.from_callable, hf0, Bool.false_eq_true, if_false]
    by_cases hal : E.alloc_ok m.allocs = true
    · cases hr : (E.ty t).move_ctor.run func with
      | error e =>
        simp only [Except.map, new_error E m t e hal]
        exact ⟨ok_of_ext_nil hm (ext_allocs m), frame_of_ext (ext_allocs m) hno
          (fun s h => absurd h (List.not_mem_nil _))⟩
      | ok p =>
        obtain ⟨v, left⟩ := p
        simp only [Except.map, new_ok E m t v hal, storage.set_dynamic, storage.default]
        obtain ⟨hg1, hh1⟩ := fresh_heap E m hm hf0 v
        refine ⟨ok_of_ext_nil hm (ext_new m t v), hg1, ?_⟩
        refine frame_of_ext (ext_new m t v) hno ?_
        intro s hs1 o1 v2 ho
        rw [List.mem_singleton] at hs1
        subst hs1
        rw [hh1] at ho
        simp only [Option.some.injEq, Prod.mk.injEq] at ho
        obtain ⟨rfl, _⟩ := ho
        exact Or.inl (Nat.le_refl _)
    · have hal0 : E.alloc_ok m.allocs = false := by simpa using hal
      simp only [new_bad_alloc E m t _ hal0]
      exact ⟨ok_of_ext_nil hm (ext_allocs m), frame_of_ext (ext_allocs m) hno
        (fun s h => absurd h (List.not_mem_nil _))⟩

end table_specs2

section wrapper_specs

variable {A R : Type}

theorem sep_congr {E : Env A R} {m m1 : Mem} {s x : storage}
    (hs : s.held E m1 = s.held E m) (hx : x.held E m1 = x.held E m) (h : s.sep E m x) :
    s.sep E m1 x := by
  intro o v o1 v1 h1 h2
  rw [hs] at h1
  rw [hx] at h2
  exact h o v o1 v1 h1 h2

theorem good_default (E : Env A R) (m : Mem) : storage.default.good E m :=
  good_of_empty E m rfl

/-- The destructor of a storage: all other storages are left alone. -/
theorem storage_dtor_spec (E : Env A R) (m : Mem) (s : storage) (hm : m.ok) (hg : s.good E m) :
    ∃ m1 s1, s.dtor E m = some (m1, s1) ∧ m1.ok ∧ frame E m m1 [s] [] := by
  obtain ⟨m1, s1, rel, hdes, _, hm1, hext, _, hrel⟩ := destroy_spec E m s hm hg
  refine ⟨m1, s1, ?_, hm1, ?_⟩
  · simp only [storage.dtor, table_destroy, hdes]
  · exact frame_of_ext hext (fun o ho => Or.inr ⟨s, by simp, hrel o ho⟩)
      (fun s h => absurd h (List.not_mem_nil _))

/-- The destructor of a wrapper. -/
theorem dtor_spec (E : Env A R) (m : Mem) (self : function) (hm : m.ok)
    (hg : self.storage.good E m) :
    ∃ m1, self.dtor E m = some m1 ∧ m1.ok ∧ frame E m m1 [self.storage] [] := by
  obtain ⟨m1, s1, hd, hm1, hfr⟩ := storage_dtor_spec E m self.storage hm hg
  exact ⟨m1, by simp only [function.dtor, hd], hm1, hfr⟩

/-- Constructing a wrapper from a callable. -/
theorem function_from_callable_spec (E : Env A R) (addr : Nat) (t : TypeId) (m : Mem)
    (func : Val) (hm : m.ok) :
    match function.from_callable E addr t m func with
    | .ok (m1, f) => f.addr = addr ∧ m1.ok ∧ f.storage.good E m1 ∧ frame E m m1 [] [f.storage]
    | .throw _ m1 => m1.ok ∧ frame E m m1 [] []
    | .ub => False := by
  have h := from_callable_spec E t m func hm
  simp only [function.from_callable]
  cases hr : storage.from_callable E t m func with
  | ok p =>
    obtain ⟨m1, s⟩ := p
    rw [hr] at h
    exact ⟨rfl, h⟩
  | throw e m1 =>
    rw [hr] at h
    exact h
  | ub =>
    rw [hr] at h
    exact h

/-- Copy construction of a wrapper. -/
theorem copy_ctor_spec (E : Env A R) (addr : Nat) (m : Mem) (other : function) (hm : m.ok)
    (hg : other.storage.good E m) :
    match function.copy_ctor E addr m other with
    | .ok (m1, f) =>
      f.addr = addr ∧ m1.ok ∧ f.storage.good E m1 ∧ frame E m m1 [storage.default] [f.storage]
    | .throw _ m1 => m1.ok ∧ frame E m m1 [storage.default] []
    | .ub => False := by
  have h := copy_spec E m other.storage storage.default hm hg (good_default E m)
    (sep_of_empty_right E m _ rfl)
  simp only [function.copy_ctor]
  cases hr : (Ops.table E other.storage.ops).copy m other.storage storage.default with
  | ok p =>
    obtain ⟨m1, s⟩ := p
    rw [hr] at h
    exact ⟨rfl, h⟩
  | throw e p =>
    obtain ⟨m1, s⟩ := p
    rw [hr] at h
    obtain ⟨hs, hm1, hfr⟩ := h
    have hd : s.dtor E m1 = some (m1, s) := by
      simp only [storage.dtor, table_destroy, hs, destroy_empty]
    simp only [hd]
    exact ⟨hm1, hfr⟩
  | ub =>
    rw [hr] at h
    exact h

/-- Move construction of a wrapper. -/
theorem move_ctor_spec (E : Env A R) (addr : Nat) (m : Mem) (other : function) (hm : m.ok)
    (hg : other.storage.good E m) :
    ∃ m1 o1 f, function.move_ctor E addr m other = some (m1, o1, f) ∧
      o1.addr = other.addr ∧ f.addr = addr ∧ o1.storage.ops = Ops.empty ∧ m1.ok ∧
      f.storage.good E m1 ∧ frame E m m1 [other.storage, storage.default] [f.storage] := by
  obtain ⟨m1, src1, dst1, hmv, hs1, hm1, hg1, hfr⟩ :=
    move_spec E m other.storage storage.default hm hg (good_default E m)
      (sep_of_empty_right E m _ rfl)
  exact ⟨m1, { other with storage := src1 }, { addr := addr, storage := dst1 },
    by simp only [function.move_ctor, hmv], rfl, rfl, hs1, hm1, hg1, hfr⟩

/-- Move assignment between wrappers at different addresses. -/
theorem assign_move_spec (E : Env A R) (m : Mem) (self other : function) (hm : m.ok)
    (hne : self.addr ≠ other.addr)
    (hgs : self.storage.good E m) (hgo : other.storage.good E m)
    (hsep : other.storage.sep E m self.storage) :
    ∃ m1 self1 o1, function.assign_move E m self other = some (m1, self1, o1) ∧
      self1.addr = self.addr ∧ o1.addr = other.addr ∧ o1.storage.ops = Ops.empty ∧ m1.ok ∧
      self1.storage.good E m1 ∧
      frame E m m1 [other.storage, self.storage] [self1.storage] := by
  obtain ⟨m1, src1, dst1, hmv, hs1, hm1, hg1, hfr⟩ :=
    move_spec E m other.storage self.storage hm hgo hgs hsep
  exact ⟨m1, { self with storage := dst1 }, { other with storage := src1 },
    by simp only [function.assign_move, hne, ne_eq, not_false_eq_true, if_true, hmv],
    rfl, rfl, hs1, hm1, hg1, hfr⟩

/-- Copy assignment between wrappers at different addresses, whether it
completes or throws: the assigned wrapper is good, and all other storages, the
source among them, are left alone. -/
theorem assign_copy_spec (E : Env A R) (m : Mem) (self other : function) (hm : m.ok)
    (hne : self.addr ≠ other.addr)
    (hgs : self.storage.good E m) (hgo : other.storage.good E m)
    (hsep : self.storage.sep E m other.storage) :
    match function.assign_copy E m self other with
    | .ok (m1, self1) =>
      self1.addr = self.addr ∧ m1.ok ∧ self1.storage.good E m1 ∧
        frame E m m1 [self.storage] [self1.storage]
    | .throw _ (m1, self1) =>
      self1.addr = self.addr ∧ m1.ok ∧ self1.storage.good E m1 ∧
        frame E m m1 [self.storage] [self1.storage]
    | .ub => False := by
  obtain ⟨m1, self1, backup, hmv, hs1, hm1, hgb, hfr1⟩ :=
    move_spec E m self.storage storage.default hm hgs (good_default E m)
      (sep_of_empty_right E m _ rfl)
  have hfr1x : ∀ x : storage, x.good E m → self.storage.sep E m x →
      x.good E m1 ∧ x.held E m1 = x.held E m ∧ backup.sep E m1 x := by
    intro x hx hsx
    obtain ⟨h1, h2, h3⟩ := hfr1 x hx (by
      intro s hs
      simp only [List.mem_cons, List.mem_singleton, List.not_mem_nil, or_false] at hs
      rcases hs with rfl | rfl
      · exact hsx
      · exact sep_of_empty_left E m x rfl)
    exact ⟨h1, h2, h3 backup (by simp)⟩
  obtain ⟨hgo1, _, hsbo⟩ := hfr1x other.storage hgo hsep
  have hcp := copy_spec E m1 other.storage self1 hm1 hgo1 (good_of_empty E m1 hs1)
    (sep_of_empty_right E m1 _ hs1)
  simp only [function.assign_copy, hne, ne_eq, not_false_eq_true, if_true, hmv]
  cases hr : (Ops.table E other.storage.ops).copy m1 other.storage self1 with
  | ub =>
    rw [hr] at hcp
    exact hcp
  | ok p =>
    obtain ⟨m2, self2⟩ := p
    rw [hr] at hcp
    obtain ⟨hm2, hg2, hfr2⟩ := hcp
    have hfr2x : ∀ x : storage, x.good E m1 →
        x.good E m2 ∧ x.held E m2 = x.held E m1 ∧ self2.sep E m2 x := by
      intro x hx
      obtain ⟨h1, h2, h3⟩ := hfr2 x hx (by
        intro s hs
        rw [List.mem_singleton] at hs
        subst hs
        exact sep_of_empty_left E m1 x hs1)
      exact ⟨h1, h2, h3 self2 (by simp)⟩
    obtain ⟨hgb2, hhb2, hs2b⟩ := hfr2x backup hgb
    obtain ⟨m3, b3, hdt, hm3, hfr3⟩ := storage_dtor_spec E m2 backup hm2 hgb2
    have hfr3x : ∀ x : storage, x.good E m2 → backup.sep E m2 x →
        x.good E m3 ∧ x.held E m3 = x.held E m2 := by
      intro x hx hsx
      obtain ⟨h1, h2, _⟩ := hfr3 x hx (by
        intro s hs
        rw [List.mem_singleton] at hs
        subst hs
        exact hsx)
      exact ⟨h1, h2⟩
    obtain ⟨hg3, hh3⟩ := hfr3x self2 hg2 (sep_symm hs2b)
    simp only [hdt]
    refine ⟨by first | rfl | trivial, hm3, hg3, ?_⟩
    intro x hx hsx
    obtain ⟨hx1, hxh1, hbx1⟩ := hfr1x x hx (hsx self.storage (by simp))
    obtain ⟨hx2, hxh2, hsx2⟩ := hfr2x x hx1
    obtain ⟨hx3, hxh3⟩ := hfr3x x hx2 (sep_congr hhb2 hxh2 hbx1)
    refine ⟨hx3, by rw [hxh3, hxh2, hxh1], ?_⟩
    intro s hs
    rw [List.mem_singleton] at hs
    subst hs
    exact sep_congr hh3 hxh3 hsx2
  | throw e p =>
    obtain ⟨m2, self2⟩ := p
    rw [hr] at hcp
    obtain ⟨hs2, hm2, hfr2⟩ := hcp
    have hfr2x : ∀ x : storage, x.good E m1 → x.good E m2 ∧ x.held E m2 = x.held E m1 := by
      intro x hx
      obtain ⟨h1, h2, _⟩ := hfr2 x hx (by
        intro s hs
        rw [List.mem_singleton] at hs
        subst hs
        exact sep_of_empty_left E m1 x hs1)
      exact ⟨h1, h2⟩
    obtain ⟨hgb2, hhb2⟩ := hfr2x backup hgb
    obtain ⟨m3, backup1, self3, hmv3, hb1, hm3, hg3, hfr3⟩ :=
      move_spec E m2 backup self2 hm2 hgb2 (good_of_empty E m2 hs2)
        (sep_of_empty_right E m2 _ hs2)
    have hdt : backup1.dtor E m3 = some (m3, backup1) := by
      simp only [storage.dtor, table_destroy, hb1, destroy_empty]
    simp only [hmv3, hdt]
    refine ⟨by first | rfl | trivial, hm3, hg3, ?_⟩
    intro x hx hsx
    obtain ⟨hx1, hxh1, hbx1⟩ := hfr1x x hx (hsx self.storage (by simp))
    obtain ⟨hx2, hxh2⟩ := hfr2x x hx1
    obtain ⟨hx3, hxh3, hsx3⟩ := hfr3 x hx2 (by
      intro s hs
      simp only [List.mem_cons, List.mem_singleton, List.not_mem_nil, or_false] at hs
      rcases hs with rfl | rfl
      · exact sep_congr hhb2 hxh2 hbx1
      · exact sep_of_empty_left E m2 x hs2)
    exact ⟨hx3, by rw [hxh3, hxh2, hxh1], hsx3⟩

end wrapper_specs

/-! ## The invariant is kept by every public operation -/

section machine

variable {A R : Type}

theorem find_addr {s : State} {a : Nat} {w : function} (h : s.find a = some w) : w.addr = a := by
  have := List.find?_some h
  simpa using this

theorem find_add (s : State) (m : Mem) (f : function) (a : Nat) :
    (s.add m f).find a = if f.addr = a then some f else s.find a := by
  by_cases h : f.addr = a <;> simp [State.find, State.add, List.find?_cons, h]

theorem find_set (s : State) (m : Mem) (f : function) (a : Nat) :
    (s.set m f).find a = if a = f.addr then (s.find a).map (fun _ => f) else s.find a := by
  obtain ⟨sm, ws⟩ := s
  simp only [State.find, State.set]
  induction ws with
  | nil => simp
  | cons x xs ih =>
    simp only [List.map_cons, List.find?_cons]
    by_cases hx : x.addr = f.addr
    · by_cases ha : a = f.addr
      · subst ha
        simp [hx]
      · have hxa : ¬ x.addr = a := fun h => ha (h ▸ hx)
        have hfa : ¬ f.addr = a := fun h => ha h.symm
        simp only [hx, if_true, hfa, decide_False, hxa, ha, if_false] at ih ⊢
        exact ih
    · by_cases hxa : x.addr = a
      · have ha : ¬ a = f.addr := fun h => hx (hxa.trans h)
        simp [hx, hxa, ha]
      · simp only [hx, if_false, hxa, decide_False]
        exact ih

theorem find_remove (s : State) (m : Mem) (b a : Nat) :
    (s.remove m b).find a = if a = b then none else s.find a := by
  obtain ⟨sm, ws⟩ := s
  simp only [State.find, State.remove]
  induction ws with
  | nil => simp
  | cons x xs ih =>
    by_cases hxb : x.addr = b
    · have hp : List.filter (fun y : function => decide (y.addr ≠ b)) (x :: xs)
          = List.filter (fun y : function => decide (y.addr ≠ b)) xs := by
        simp [List.filter_cons, hxb]
      rw [hp, ih]
      by_cases ha : a = b
      · simp only [ha, if_true]
      · have hxa : ¬ x.addr = a := fun h => ha (h ▸ hxb)
        simp [List.find?_cons, hxa, ha]
    · have hp : List.filter (fun y : function => decide (y.addr ≠ b)) (x :: xs)
          = x :: List.filter (fun y : function => decide (y.addr ≠ b)) xs := by
        simp [List.filter_cons, hxb]
      rw [hp]
      by_cases hxa : x.addr = a
      · have ha : ¬ a = b := fun h => hxb (hxa.trans h)
        simp [List.find?_cons, hxa, ha]
      · have h1 : List.find? (fun w : function => decide (w.addr = a))
            (x :: List.filter (fun y : function => decide (y.addr ≠ b)) xs)
            = List.find? (fun w : function => decide (w.addr = a))
                (List.filter (fun y : function => decide (y.addr ≠ b)) xs) := by
          simp [List.find?_cons, hxa]
        have h2 : List.find? (fun w : function => decide (w.addr = a)) (x :: xs)
            = List.find? (fun w : function => decide (w.addr = a)) xs := by
          simp [List.find?_cons, hxa]
        rw [h1, h2, ih]

/-- The invariant after an operation on the wrappers at the addresses `P`. -/
theorem inv_update (E : Env A R) (s s1 : State) (P : List Nat) (olds news : List storage)
    (hinv : s.inv E)
    (hm1 : s1.mem.ok)
    (hfr : frame E s.mem s1.mem olds news)
    (holds : ∀ so ∈ olds, so.ops = Ops.empty ∨
      ∃ p ∈ P, ∃ w, s.find p = some w ∧ w.storage = so)
    (hfind : ∀ a w, s1.find a = some w →
      (a ∈ P ∧ (w.storage.ops = Ops.empty ∨ w.storage ∈ news)) ∨ (a ∉ P ∧ s.find a = some w))
    (hgood : ∀ x ∈ news, x.good E s1.mem)
    (hsep : ∀ a b wa wb, a ≠ b → a ∈ P → b ∈ P → s1.find a = some wa → s1.find b = some wb →
      wa.storage.sep E s1.mem wb.storage) :
    s1.inv E := by
  obtain ⟨_, hg, hs⟩ := hinv
  have hby : ∀ a w, a ∉ P → s.find a = some w →
      w.storage.good E s1.mem ∧ w.storage.held E s1.mem = w.storage.held E s.mem ∧
        ∀ sn ∈ news, sn.sep E s1.mem w.storage := by
    intro a w haP hfa
    refine hfr w.storage (hg a w hfa) ?_
    intro so hso
    rcases holds so hso with he | ⟨p, hp, wp, hfp, rfl⟩
    · exact sep_of_empty_left E s.mem _ he
    · exact hs p a wp w (fun h => haP (h ▸ hp)) hfp hfa
  refine ⟨hm1, ?_, ?_⟩
  · intro a w hfa
    rcases hfind a w hfa with ⟨_, he | hn⟩ | ⟨haP, hold⟩
    · exact good_of_empty E _ he
    · exact hgood _ hn
    · exact (hby a w haP hold).1
  · intro a b wa wb hab hfa hfb
    rcases hfind a wa hfa with ⟨haP, hea | hna⟩ | ⟨haP, holda⟩
    · exact sep_of_empty_left E _ _ hea
    · rcases hfind b wb hfb with ⟨hbP, _⟩ | ⟨hbP, holdb⟩
      · exact hsep a b wa wb hab haP hbP hfa hfb
      · exact (hby b wb hbP holdb).2.2 _ hna
    · rcases hfind b wb hfb with ⟨hbP, heb | hnb⟩ | ⟨hbP, holdb⟩
      · exact sep_of_empty_right E _ _ heb
      · exact sep_symm ((hby a wa haP holda).2.2 _ hnb)
      · exact sep_congr (hby a wa haP holda).2.1 (hby b wb hbP holdb).2.1
          (hs a b wa wb hab holda holdb)

end machine

section steps

variable {A R : Type}

theorem not_both_single {w a b : Nat} (hab : a ≠ b) (ha : a ∈ [w]) (hb : b ∈ [w]) : False := by
  rw [List.mem_singleton] at ha hb
  exact hab (ha.trans hb.symm)

/-- Invoking a good wrapper has no undefined behaviour. -/
theorem call_defined (E : Env A R) (m : Mem) (self : function) (hg : self.storage.good E m)
    (args : A) : self.call E m args ≠ Invoked.ub := by
  obtain ⟨addr, ⟨buf, ops⟩⟩ := self
  cases ops with
  | empty => simp [function.call, invoke_empty]
  | traits t =>
    by_cases hf : E.fits t = true
    · obtain ⟨o, v, hb⟩ := valid_inline rfl hf hg.1
      simp only at hb
      subst hb
      simp [function.call, invoke_inline E m hf]
    · have hf0 : E.fits t = false := by simpa using hf
      obtain ⟨a, v, hb, hl⟩ := valid_heap rfl hf0 hg.1
      simp only at hb
      subst hb
      simp [function.call, invoke_heap E m hf0 hl]

theorem step_construct_empty (E : Env A R) (s : State) (w : Nat) (hinv : s.inv E)
    (hfw : s.find w = none) :
    ∃ s1, State.step E s (Cmd.construct_empty w) = some s1 ∧ s1.inv E := by
  refine ⟨s.add s.mem (function.default w), by simp only [State.step, hfw], ?_⟩
  refine inv_update E s _ [w] [] [] hinv hinv.1 (frame_nil E s.mem [])
    (fun so h => absurd h (List.not_mem_nil _)) ?_ (fun x h => absurd h (List.not_mem_nil _))
    (fun a b _ _ hab ha hb _ _ => (not_both_single hab ha hb).elim)
  intro a x h
  rw [find_add] at h
  by_cases hwa : w = a
  · have : (function.default w).addr = a := hwa
    rw [if_pos this] at h
    injection h with h
    subst h
    exact Or.inl ⟨by simp [hwa], Or.inl rfl⟩
  · have : ¬ (function.default w).addr = a := hwa
    rw [if_neg this] at h
    exact Or.inr ⟨by simpa using fun h => hwa h.symm, h⟩

theorem step_construct_from (E : Env A R) (s : State) (w : Nat) (t : TypeId) (func : Val)
    (hinv : s.inv E) (hfw : s.find w = none) :
    ∃ s1, State.step E s (Cmd.construct_from w t func) = some s1 ∧ s1.inv E := by
  have hspec := function_from_callable_spec E w t s.mem func hinv.1
  cases hr : function.from_callable E w t s.mem func with
  | ub =>
    rw [hr] at hspec
    exact hspec.elim
  | throw e m1 =>
    rw [hr] at hspec
    obtain ⟨hm1, hfr⟩ := hspec
    refine ⟨{ s with mem := m1 }, by simp only [State.step, hfw, hr], ?_⟩
    refine inv_update E s _ [] [] [] hinv hm1 hfr
      (fun so h => absurd h (List.not_mem_nil _)) ?_ (fun x h => absurd h (List.not_mem_nil _))
      (fun a b _ _ _ ha _ _ _ => absurd ha (List.not_mem_nil _))
    intro a x h
    exact Or.inr ⟨List.not_mem_nil _, h⟩
  | ok p =>
    obtain ⟨m1, f⟩ := p
    rw [hr] at hspec
    obtain ⟨hfa, hm1, hg, hfr⟩ := hspec
    refine ⟨s.add m1 f, by simp only [State.step, hfw, hr], ?_⟩
    refine inv_update E s _ [w] [] [f.storage] hinv hm1 hfr
      (fun so h => absurd h (List.not_mem_nil _)) ?_ ?_
      (fun a b _ _ hab ha hb _ _ => (not_both_single hab ha hb).elim)
    · intro a x h
      rw [find_add] at h
      by_cases hwa : f.addr = a
      · rw [if_pos hwa] at h
        injection h with h
        subst h
        exact Or.inl ⟨by simp [← hwa, hfa], Or.inr (by simp)⟩
      · rw [if_neg hwa] at h
        exact Or.inr ⟨by simpa [← hfa] using fun h => hwa h.symm, h⟩
    · intro x hx
      rw [List.mem_singleton] at hx
      subst hx
      exact hg

theorem step_copy_construct (E : Env A R) (s : State) (w o : Nat) (other : function)
    (hinv : s.inv E) (hfw : s.find w = none) (hfo : s.find o = some other) :
    ∃ s1, State.step E s (Cmd.copy_construct w o) = some s1 ∧ s1.inv E := by
  have hspec := copy_ctor_spec E w s.mem other hinv.1 (hinv.2.1 o other hfo)
  have holds : ∀ so ∈ [storage.default], so.ops = Ops.empty ∨
      ∃ p ∈ ([] : List Nat), ∃ x, s.find p = some x ∧ x.storage = so := by
    intro so hso
    rw [List.mem_singleton] at hso
    subst hso
    exact Or.inl rfl
  cases hr : function.copy_ctor E w s.mem other with
  | ub =>
    rw [hr] at hspec
    exact hspec.elim
  | throw e m1 =>
    rw [hr] at hspec
    obtain ⟨hm1, hfr⟩ := hspec
    refine ⟨{ s with mem := m1 }, by simp only [State.step, hfw, hfo, hr], ?_⟩
    refine inv_update E s _ [] [storage.default] [] hinv hm1 hfr holds ?_
      (fun x h => absurd h (List.not_mem_nil _))
      (fun a b _ _ _ ha _ _ _ => absurd ha (List.not_mem_nil _))
    intro a x h
    exact Or.inr ⟨List.not_mem_nil _, h⟩
  | ok p =>
    obtain ⟨m1, f⟩ := p
    rw [hr] at hspec
    obtain ⟨hfa, hm1, hg, hfr⟩ := hspec
    refine ⟨s.add m1 f, by simp only [State.step, hfw, hfo, hr], ?_⟩
    refine inv_update E s _ [w] [storage.default] [f.storage] hinv hm1 hfr ?_ ?_ ?_
      (fun a b _ _ hab ha hb _ _ => (not_both_single hab ha hb).elim)
    · intro so hso
      rw [List.mem_singleton] at hso
      subst hso
      exact Or.inl rfl
    · intro a x h
      rw [find_add] at h
      by_cases hwa : f.addr = a
      · rw [if_pos hwa] at h
        injection h with h
        subst h
        exact Or.inl ⟨by simp [← hwa, hfa], Or.inr (by simp)⟩
      · rw [if_neg hwa] at h
        exact Or.inr ⟨by simpa [← hfa] using fun h => hwa h.symm, h⟩
    · intro x hx
      rw [List.mem_singleton] at hx
      subst hx
      exact hg

theorem step_invoke (E : Env A R) (s : State) (w : Nat) (args : A) (self : function)
    (hinv : s.inv E) (hfw : s.find w = some self) :
    State.step E s (Cmd.invoke w args) = some s := by
  have hd := call_defined E s.mem self (hinv.2.1 w self hfw) args
  cases hc : function.call E s.mem self args with
  | ret r => simp only [State.step, hfw, hc]
  | throw e => simp only [State.step, hfw, hc]
  | ub => exact absurd hc hd

theorem step_destroy (E : Env A R) (s : State) (w : Nat) (self : function)
    (hinv : s.inv E) (hfw : s.find w = some self) :
    ∃ s1, State.step E s (Cmd.destroy w) = some s1 ∧ s1.inv E := by
  obtain ⟨m1, hd, hm1, hfr⟩ := dtor_spec E s.mem self hinv.1 (hinv.2.1 w self hfw)
  refine ⟨s.remove m1 w, by simp only [State.step, hfw, hd], ?_⟩
  refine inv_update E s _ [w] [self.storage] [] hinv hm1 hfr ?_ ?_
    (fun x h => absurd h (List.not_mem_nil _))
    (fun a b _ _ hab ha hb _ _ => (not_both_single hab ha hb).elim)
  · intro so hso
    rw [List.mem_singleton] at hso
    subst hso
    exact Or.inr ⟨w, by simp, self, hfw, rfl⟩
  · intro a x h
    rw [find_remove] at h
    by_cases haw : a = w
    · rw [if_pos haw] at h
      cases h
    · rw [if_neg haw] at h
      exact Or.inr ⟨by simpa using haw, h⟩

end steps

section steps2

variable {A R : Type}

theorem find_set_self (s : State) (m : Mem) (f : function) {w : function}
    (h : s.find f.addr = some w) : (s.set m f).find f.addr = some f := by
  rw [find_set, if_pos rfl, h]
  rfl

theorem find_set_ne (s : State) (m : Mem) (f : function) {a : Nat} (h : a ≠ f.addr) :
    (s.set m f).find a = s.find a := by
  rw [find_set, if_neg h]

theorem find_set_some (s : State) (m : Mem) (f : function) {a : Nat} {x : function}
    (h : (s.set m f).find a = some x) : (a = f.addr ∧ x = f) ∨ (a ≠ f.addr ∧ s.find a = some x) := by
  rw [find_set] at h
  by_cases ha : a = f.addr
  · rw [if_pos ha] at h
    cases hs : s.find a with
    | none => rw [hs] at h; cases h
    | some y =>
      rw [hs] at h
      simp only [Option.map_some', Option.some.injEq] at h
      exact Or.inl ⟨ha, h.symm⟩
  · rw [if_neg ha] at h
    exact Or.inr ⟨ha, h⟩

theorem step_move_construct (E : Env A R) (s : State) (w o : Nat) (other : function)
    (hinv : s.inv E) (hfw : s.find w = none) (hfo : s.find o = some other) :
    ∃ s1, State.step E s (Cmd.move_construct w o) = some s1 ∧ s1.inv E := by
  obtain ⟨m1, o1, f, hmv, ho1a, hfa, ho1e, hm1, hg, hfr⟩ :=
    move_ctor_spec E w s.mem other hinv.1 (hinv.2.1 o other hfo)
  have hoa : other.addr = o := find_addr hfo
  have hwo : w ≠ o := by
    intro h
    rw [h, hfo] at hfw
    cases hfw
  have hchar : ∀ a x, ((s.set m1 o1).add m1 f).find a = some x →
      (a = w ∧ x = f) ∨ (a = o ∧ x = o1) ∨ (a ≠ w ∧ a ≠ o ∧ s.find a = some x) := by
    intro a x h
    rw [find_add] at h
    by_cases hwa : f.addr = a
    · rw [if_pos hwa] at h
      injection h with h
      exact Or.inl ⟨by rw [← hwa, hfa], h.symm⟩
    · rw [if_neg hwa] at h
      have haw : a ≠ w := fun h1 => hwa (by rw [hfa, h1])
      rcases find_set_some s m1 o1 h with ⟨h1, h2⟩ | ⟨h1, h2⟩
      · exact Or.inr (Or.inl ⟨by rw [h1, ho1a, hoa], h2⟩)
      · exact Or.inr (Or.inr ⟨haw, by rw [ho1a, hoa] at h1; exact h1, h2⟩)
  refine ⟨(s.set m1 o1).add m1 f, by simp only [State.step, hfw, hfo, hmv], ?_⟩
  refine inv_update E s _ [w, o] [other.storage, storage.default] [f.storage] hinv hm1 hfr
    ?_ ?_ ?_ ?_
  · intro so hso
    simp only [List.mem_cons, List.mem_singleton, List.not_mem_nil, or_false] at hso
    rcases hso with rfl | rfl
    · exact Or.inr ⟨o, by simp, other, hfo, rfl⟩
    · exact Or.inl rfl
  · intro a x h
    rcases hchar a x h with ⟨h1, h2⟩ | ⟨h1, h2⟩ | ⟨h1, h2, h3⟩
    · subst h2
      exact Or.inl ⟨by simp [h1], Or.inr (by simp)⟩
    · subst h2
      exact Or.inl ⟨by simp [h1], Or.inl ho1e⟩
    · exact Or.inr ⟨by simp [h1, h2], h3⟩
  · intro x hx
    rw [List.mem_singleton] at hx
    subst hx
    exact hg
  · intro a b wa wb hab haP hbP ha hb
    have hnot : ∀ c, c ∈ [w, o] → c ≠ w → c ≠ o → False := by
      intro c hc h1 h2
      simp only [List.mem_cons, List.mem_singleton, List.not_mem_nil, or_false] at hc
      rcases hc with h | h
      · exact h1 h
      · exact h2 h
    rcases hchar a wa ha with ⟨h1, _⟩ | ⟨_, h2⟩ | ⟨h1, h2, _⟩
    · rcases hchar b wb hb with ⟨h4, _⟩ | ⟨_, h5⟩ | ⟨h4, h5, _⟩
      · exact absurd (h1.trans h4.symm) hab
      · subst h5
        exact sep_of_empty_right E _ _ ho1e
      · exact (hnot b hbP h4 h5).elim
    · subst h2
      exact sep_of_empty_left E _ _ ho1e
    · exact (hnot a haP h1 h2).elim

end steps2

section steps3

variable {A R : Type}

/-- Writing one good wrapper back at its address keeps the invariant. -/
theorem inv_set_one (E : Env A R) (s : State) (w : Nat) (self self1 : function) (m1 : Mem)
    (hinv : s.inv E) (hfw : s.find w = some self) (ha : self1.addr = self.addr)
    (hm1 : m1.ok) (hg : self1.storage.good E m1)
    (hfr : frame E s.mem m1 [self.storage] [self1.storage]) :
    (s.set m1 self1).inv E := by
  have hsa : self.addr = w := find_addr hfw
  refine inv_update E s _ [w] [self.storage] [self1.storage] hinv hm1 hfr ?_ ?_ ?_
    (fun a b _ _ hab ha hb _ _ => (not_both_single hab ha hb).elim)
  · intro so hso
    rw [List.mem_singleton] at hso
    subst hso
    exact Or.inr ⟨w, by simp, self, hfw, rfl⟩
  · intro a x h
    rcases find_set_some s m1 self1 h with ⟨h1, h2⟩ | ⟨h1, h2⟩
    · subst h2
      exact Or.inl ⟨by simp [h1, ha, hsa], Or.inr (by simp)⟩
    · exact Or.inr ⟨by simpa [ha, hsa] using h1, h2⟩
  · intro x hx
    rw [List.mem_singleton] at hx
    subst hx
    exact hg

theorem step_copy_assign (E : Env A R) (s : State) (w o : Nat) (self other : function)
    (hinv : s.inv E) (hfw : s.find w = some self) (hfo : s.find o = some other) :
    ∃ s1, State.step E s (Cmd.copy_assign w o) = some s1 ∧ s1.inv E := by
  have hsa : self.addr = w := find_addr hfw
  have hoa : other.addr = o := find_addr hfo
  by_cases hwo : w = o
  · have hsame : ¬ self.addr ≠ other.addr := by
      rw [hsa, hoa]
      exact fun h => h hwo
    have hr : function.assign_copy E s.mem self other = Outcome.ok (s.mem, self) := by
      simp only [function.assign_copy, hsame, if_false]
    refine ⟨s.set s.mem self, by simp only [State.step, hfw, hfo, hr], ?_⟩
    exact inv_set_one E s w self self s.mem hinv hfw rfl hinv.1 (hinv.2.1 w self hfw)
      (frame_refl E s.mem [self.storage])
  · have hne : self.addr ≠ other.addr := by
      rw [hsa, hoa]
      exact hwo
    have hspec := assign_copy_spec E s.mem self other hinv.1 hne (hinv.2.1 w self hfw)
      (hinv.2.1 o other hfo) (hinv.2.2 w o self other hwo hfw hfo)
    cases hr : function.assign_copy E s.mem self other with
    | ub =>
      rw [hr] at hspec
      exact hspec.elim
    | ok p =>
      obtain ⟨m1, self1⟩ := p
      rw [hr] at hspec
      obtain ⟨ha, hm1, hg, hfr⟩ := hspec
      exact ⟨s.set m1 self1, by simp only [State.step, hfw, hfo, hr],
        inv_set_one E s w self self1 m1 hinv hfw ha hm1 hg hfr⟩
    | throw e p =>
      obtain ⟨m1, self1⟩ := p
      rw [hr] at hspec
      obtain ⟨ha, hm1, hg, hfr⟩ := hspec
      exact ⟨s.set m1 self1, by simp only [State.step, hfw, hfo, hr],
        inv_set_one E s w self self1 m1 hinv hfw ha hm1 hg hfr⟩

theorem step_move_assign (E : Env A R) (s : State) (w o : Nat) (self other : function)
    (hinv : s.inv E) (hfw : s.find w = some self) (hfo : s.find o = some other) :
    ∃ s1, State.step E s (Cmd.move_assign w o) = some s1 ∧ s1.inv E := by
  have hsa : self.addr = w := find_addr hfw
  have hoa : other.addr = o := find_addr hfo
  by_cases hwo : w = o
  · have hso : other = self := by
      rw [hwo, hfo] at hfw
      injection hfw
    subst hso
    have hr : function.assign_move E s.mem other other = some (s.mem, other, other) := by
      simp only [function.assign_move, ne_eq, not_true_eq_false, if_false]
    refine ⟨(s.set s.mem other).set s.mem other, by simp only [State.step, hfw, hfo, hr], ?_⟩
    have h1 := inv_set_one E s w other other s.mem hinv hfw rfl hinv.1 (hinv.2.1 w other hfw)
      (frame_refl E s.mem [other.storage])
    have hf1 : (s.set s.mem other).find w = some other := by
      rw [← hsa]
      exact find_set_self s s.mem other (by rw [hsa]; exact hfw)
    exact inv_set_one E (s.set s.mem other) w other other s.mem h1 hf1 rfl hinv.1
      (hinv.2.1 w other hfw) (frame_refl E s.mem [other.storage])
  · have hne : self.addr ≠ other.addr := by
      rw [hsa, hoa]
      exact hwo
    obtain ⟨m1, self1, o1, hmv, hs1a, ho1a, ho1e, hm1, hg, hfr⟩ :=
      assign_move_spec E s.mem self other hinv.1 hne (hinv.2.1 w self hfw)
        (hinv.2.1 o other hfo) (hinv.2.2 o w other self (fun h => hwo h.symm) hfo hfw)
    have hchar : ∀ a x, ((s.set m1 self1).set m1 o1).find a = some x →
        (a = w ∧ x = self1) ∨ (a = o ∧ x = o1) ∨ (a ≠ w ∧ a ≠ o ∧ s.find a = some x) := by
      intro a x h
      rcases find_set_some _ m1 o1 h with ⟨h1, h2⟩ | ⟨h1, h2⟩
      · exact Or.inr (Or.inl ⟨by rw [h1, ho1a, hoa], h2⟩)
      · rw [ho1a, hoa] at h1
        rcases find_set_some s m1 self1 h2 with ⟨h3, h4⟩ | ⟨h3, h4⟩
        · exact Or.inl ⟨by rw [h3, hs1a, hsa], h4⟩
        · rw [hs1a, hsa] at h3
          exact Or.inr (Or.inr ⟨h3, h1, h4⟩)
    refine ⟨(s.set m1 self1).set m1 o1, by simp only [State.step, hfw, hfo, hmv], ?_⟩
    refine inv_update E s _ [w, o] [other.storage, self.storage] [self1.storage] hinv hm1 hfr
      ?_ ?_ ?_ ?_
    · intro so hso
      simp only [List.mem_cons, List.mem_singleton, List.not_mem_nil, or_false] at hso
      rcases hso with rfl | rfl
      · exact Or.inr ⟨o, by simp, other, hfo, rfl⟩
      · exact Or.inr ⟨w, by simp, self, hfw, rfl⟩
    · intro a x h
      rcases hchar a x h with ⟨h1, h2⟩ | ⟨h1, h2⟩ | ⟨h1, h2, h3⟩
      · subst h2
        exact Or.inl ⟨by simp [h1], Or.inr (by simp)⟩
      · subst h2
        exact Or.inl ⟨by simp [h1], Or.inl ho1e⟩
      · exact Or.inr ⟨by simp [h1, h2], h3⟩
    · intro x hx
      rw [List.mem_singleton] at hx
      subst hx
      exact hg
    · intro a b wa wb hab haP hbP ha hb
      have hnot : ∀ c, c ∈ [w, o] → c ≠ w → c ≠ o → False := by
        intro c hc h1 h2
        simp only [List.mem_cons, List.mem_singleton, List.not_mem_nil, or_false] at hc
        rcases hc with h | h
        · exact h1 h
        · exact h2 h
      rcases hchar a wa ha with ⟨h1, _⟩ | ⟨_, h2⟩ | ⟨h1, h2, _⟩
      · rcases hchar b wb hb with ⟨h4, _⟩ | ⟨_, h5⟩ | ⟨h4, h5, _⟩
        · exact absurd (h1.trans h4.symm) hab
        · subst h5
          exact sep_of_empty_right E _ _ ho1e
        · exact (hnot b hbP h4 h5).elim
      · subst h2
        exact sep_of_empty_left E _ _ ho1e
      · exact (hnot a haP h1 h2).elim

end steps3

section reachable

variable {A R : Type}

theorem init_inv (E : Env A R) : State.init.inv E := by
  refine ⟨⟨List.nodup_nil, fun o h => absurd h (List.not_mem_nil _)⟩, ?_, ?_⟩
  · intro a w h
    cases h
  · intro a b wa wb _ h
    cases h

/-- An applicable operation on a state that satisfies the invariant completes
(with or without an exception) in a state that satisfies the invariant: it has
no undefined behaviour. -/
theorem step_some (E : Env A R) (s : State) (c : Cmd A) (hinv : s.inv E)
    (happ : c.applicable s) : ∃ s1, State.step E s c = some s1 ∧ s1.inv E := by
  cases c with
  | construct_empty w => exact step_construct_empty E s w hinv happ
  | construct_from w t func => exact step_construct_from E s w t func hinv happ
  | copy_construct w o =>
    obtain ⟨hw, ho⟩ := happ
    obtain ⟨other, hfo⟩ := Option.isSome_iff_exists.mp ho
    exact step_copy_construct E s w o other hinv hw hfo
  | move_construct w o =>
    obtain ⟨hw, ho⟩ := happ
    obtain ⟨other, hfo⟩ := Option.isSome_iff_exists.mp ho
    exact step_move_construct E s w o other hinv hw hfo
  | copy_assign w o =>
    obtain ⟨hw, ho⟩ := happ
    obtain ⟨self, hfw⟩ := Option.isSome_iff_exists.mp hw
    obtain ⟨other, hfo⟩ := Option.isSome_iff_exists.mp ho
    exact step_copy_assign E s w o self other hinv hfw hfo
  | move_assign w o =>
    obtain ⟨hw, ho⟩ := happ
    obtain ⟨self, hfw⟩ := Option.isSome_iff_exists.mp hw
    obtain ⟨other, hfo⟩ := Option.isSome_iff_exists.mp ho
    exact step_move_assign E s w o self other hinv hfw hfo
  | invoke w args =>
    obtain ⟨self, hfw⟩ := Option.isSome_iff_exists.mp happ
    exact ⟨s, step_invoke E s w args self hinv hfw, hinv⟩
  | destroy w =>
    obtain ⟨self, hfw⟩ := Option.isSome_iff_exists.mp happ
    exact step_destroy E s w self hinv hfw

/-- An operation that is not applicable is rejected. -/
theorem step_applicable (E : Env A R) (s s1 : State) (c : Cmd A)
    (h : State.step E s c = some s1) : c.applicable s := by
  cases c with
  | construct_empty w =>
    cases hfw : s.find w with
    | none => exact hfw
    | some x => simp [State.step, hfw] at h
  | construct_from w t func =>
    cases hfw : s.find w with
    | none => exact hfw
    | some x => simp [State.step, hfw] at h
  | copy_construct w o =>
    cases hfw : s.find w with
    | some x => simp [State.step, hfw] at h
    | none =>
      cases hfo : s.find o with
      | none => simp [State.step, hfw, hfo] at h
      | some y => exact ⟨hfw, by rw [hfo]; rfl⟩
  | move_construct w o =>
    cases hfw : s.find w with
    | some x => simp [State.step, hfw] at h
    | none =>
      cases hfo : s.find o with
      | none => simp [State.step, hfw, hfo] at h
      | some y => exact ⟨hfw, by rw [hfo]; rfl⟩
  | copy_assign w o =>
    cases hfw : s.find w with
    | none => simp [State.step, hfw] at h
    | some x =>
      cases hfo : s.find o with
      | none => simp [State.step, hfw, hfo] at h
      | some y => exact ⟨by rw [hfw]; rfl, by rw [hfo]; rfl⟩
  | move_assign w o =>
    cases hfw : s.find w with
    | none => simp [State.step, hfw] at h
    | some x =>
      cases hfo : s.find o with
      | none => simp [State.step, hfw, hfo] at h
      | some y => exact ⟨by rw [hfw]; rfl, by rw [hfo]; rfl⟩
  | invoke w args =>
    cases hfw : s.find w with
    | none => simp [State.step, hfw] at h
    | some x => exact (by rw [hfw]; rfl : (s.find w).isSome = true)
  | destroy w =>
    cases hfw : s.find w with
    | none => simp [State.step, hfw] at h
    | some x => exact (by rw [hfw]; rfl : (s.find w).isSome = true)

theorem step_inv (E : Env A R) (s s1 : State) (c : Cmd A) (hinv : s.inv E)
    (h : State.step E s c = some s1) : s1.inv E := by
  obtain ⟨s2, h2, hi⟩ := step_some E s c hinv (step_applicable E s s1 c h)
  rw [h] at h2
  injection h2 with h2
  rw [h2]
  exact hi

theorem run_inv (E : Env A R) (cmds : List (Cmd A)) (s s1 : State) (hinv : s.inv E)
    (h : State.run E s cmds = some s1) : s1.inv E := by
  induction cmds generalizing s with
  | nil =>
    simp only [State.run, Option.some.injEq] at h
    rw [← h]
    exact hinv
  | cons c cs ih =>
    simp only [State.run] at h
    cases hs : State.step E s c with
    | none => simp [hs] at h
    | some s2 =>
      rw [hs] at h
      exact ih s2 (step_inv E s s2 c hinv hs) h

/-- C8: in every state reached from the initial state by a finite sequence of
public wrapper operations, the release log (in-place destructor runs and
deletes) names no object twice; and a live wrapper that is bound to the empty
table, whatever its buffer still contains, releases nothing when it is
destroyed. -/
theorem no_double_release (E : Env A R) (cmds : List (Cmd A)) (s : State)
    (h : State.run E State.init cmds = some s) :
    s.mem.released_ids.Nodup ∧
    ∀ a w, s.find a = some w → w.storage.ops = Ops.empty → w.dtor E s.mem = some s.mem := by
  refine ⟨(run_inv E cmds State.init s (init_inv E) h).1.1, ?_⟩
  intro a w _ he
  simp only [function.dtor, storage.dtor, table_destroy, he, destroy_empty]

/-- C8, an instance: a heap callable is moved to a second wrapper and the second
wrapper is destroyed; the moved-from wrapper, whose buffer still contains the
address of the deleted object, is alive and bound to the empty table. -/
theorem no_double_release_witness :
    Mem.released_ids { heap := [], made := [2], freed := [(2, 0)], allocs := 1 } = [0] ∧
    (Mem.released_ids { heap := [], made := [2], freed := [(2, 0)], allocs := 1 }).Nodup ∧
    ∀ a w, State.find
        { mem := { heap := [], made := [2], freed := [(2, 0)], allocs := 1 },
          ws := [{ addr := 0, storage := { buf := Buf.ptr (Ptr.heap 0), ops := Ops.empty } }] } a
        = some w →
      w.storage.ops = Ops.empty →
      w.dtor Example.env { heap := [], made := [2], freed := [(2, 0)], allocs := 1 }
        = some { heap := [], made := [2], freed := [(2, 0)], allocs := 1 } :=
  ⟨rfl, no_double_release Example.env
    [Cmd.construct_from 0 2 5, Cmd.move_construct 1 0, Cmd.destroy 1]
    { mem := { heap := [], made := [2], freed := [(2, 0)], allocs := 1 },
      ws := [{ addr := 0, storage := { buf := Buf.ptr (Ptr.heap 0), ops := Ops.empty } }] }
    (by decide)⟩

end reachable

section target_access

variable {A R : Type}

end target_access

section self_assign

variable {A R : Type}

/-- C12: self-assignment of a live wrapper, in the copy form and in the move
form, returns the wrapper and the memory unchanged (same table, same buffer, no
construction, no release, no allocation request), and the program state after
the operation has the same memory and the same wrapper at every address. -/
theorem self_assign_noop (E : Env A R) (s : State) (a : Nat) (w : function)
    (hfw : s.find a = some w) :
    function.assign_copy E s.mem w w = Outcome.ok (s.mem, w) ∧
    function.assign_move E s.mem w w = some (s.mem, w, w) ∧
    (∃ s1, State.step E s (Cmd.copy_assign a a) = some s1 ∧ s1.mem = s.mem ∧
      ∀ b, s1.find b = s.find b) ∧
    (∃ s1, State.step E s (Cmd.move_assign a a) = some s1 ∧ s1.mem = s.mem ∧
      ∀ b, s1.find b = s.find b) := by
  have hc : function.assign_copy E s.mem w w = Outcome.ok (s.mem, w) := by
    simp only [function.assign_copy, ne_eq, not_true_eq_false, if_false]
  have hmv : function.assign_move E s.mem w w = some (s.mem, w, w) := by
    simp only [function.assign_move, ne_eq, not_true_eq_false, if_false]
  have hwa : w.addr = a := find_addr hfw
  have hset : ∀ (s0 : State) b, s0.find a = some w → (s0.set s.mem w).find b = s0.find b := by
    intro s0 b h0
    rw [find_set]
    by_cases hb : b = w.addr
    · rw [if_pos hb, hb, hwa, h0]
      rfl
    · rw [if_neg hb]
  refine ⟨hc, hmv, ⟨s.set s.mem w, ?_, rfl, fun b => hset s b hfw⟩,
    ⟨(s.set s.mem w).set s.mem w, ?_, rfl, ?_⟩⟩
  · simp only [State.step, hfw, hc]
  · simp only [State.step, hfw, hmv]
  · intro b
    have h1 : (s.set s.mem w).find a = some w := by rw [hset s a hfw]; exact hfw
    have h2 := hset (s.set s.mem w) b h1
    rw [hset s b hfw] at h2
    exact h2

/-- C12, an instance: a state with one wrapper holding a heap callable. -/
theorem self_assign_noop_witness :
    function.assign_copy Example.env Example.mem Example.w_heap Example.w_heap
      = Outcome.ok (Example.mem, Example.w_heap) ∧
    function.assign_move Example.env Example.mem Example.w_heap Example.w_heap
      = some (Example.mem, Example.w_heap, Example.w_heap) ∧
    (∃ s1, State.step Example.env { mem := Example.mem, ws := [Example.w_heap] }
        (Cmd.copy_assign 11 11) = some s1 ∧ s1.mem = Example.mem ∧
      ∀ b, s1.find b = State.find { mem := Example.mem, ws := [Example.w_heap] } b) ∧
    (∃ s1, State.step Example.env { mem := Example.mem, ws := [Example.w_heap] }
        (Cmd.move_assign 11 11) = some s1 ∧ s1.mem = Example.mem ∧
      ∀ b, s1.find b = State.find { mem := Example.mem, ws := [Example.w_heap] } b) :=
  self_assign_noop Example.env { mem := Example.mem, ws := [Example.w_heap] } 11 Example.w_heap
    (by decide)

/-- C13 (as amended): the bool conversion of a wrapper is true iff the bound
table is not the canonical empty table, and false iff it is. -/
theorem to_bool_iff (w : function) :
    (w.to_bool = true ↔ w.storage.ops ≠ Ops.empty) ∧
    (w.to_bool = false ↔ w.storage.ops = Ops.empty) := by
  constructor
  · simp [function.to_bool]
  · simp [function.to_bool]

/-- C13 as stated fails: a default-constructed wrapper is bound to the empty
table and its bool conversion is false; a wrapper holding a callable is not
bound to the empty table and its bool conversion is true. -/
theorem to_bool_of_empty_is_false :
    (function.default 0).storage.ops = Ops.empty ∧ (function.default 0).to_bool = false ∧
    Example.w_inline.storage.ops ≠ Ops.empty ∧ Example.w_inline.to_bool = true := by
  decide

end self_assign

section destroy_twice

variable {A R : Type}

theorem held_ids_of_empty (E : Env A R) (m : Mem) {s : storage} (h : s.ops = Ops.empty) :
    s.held_ids E m = [] := by
  simp only [storage.held_ids, held_of_empty E m h]

/-- The exact effect of destroying a storage in one of its three states. -/
theorem destroy_exact (E : Env A R) (m : Mem) (s : storage) (hv : s.valid E m = true) :
    ∃ m1 s1, Ops.destroy E s.ops m s = some (m1, s1) ∧ s1.ops = Ops.empty ∧
      m1.made = m.made ∧ m1.allocs = m.allocs ∧
      m1.released_ids = m.released_ids ++ s.held_ids E m ∧
      (∀ a, a ∉ s.held_ids E m → m1.heap.lookup a = m.heap.lookup a) ∧
      (s.ops = Ops.empty → m1 = m ∧ s1 = s) := by
  obtain ⟨buf, ops⟩ := s
  cases ops with
  | empty =>
    refine ⟨m, _, destroy_empty E m _, rfl, rfl, rfl, ?_, fun _ _ => rfl, fun _ => ⟨rfl, rfl⟩⟩
    rw [held_ids_of_empty E m rfl, List.append_nil]
  | traits t =>
    by_cases hf : E.fits t = true
    · obtain ⟨o, v, hb⟩ := valid_inline rfl hf hv
      simp only at hb
      subst hb
      have hheld : storage.held_ids E m { buf := Buf.obj t o v, ops := Ops.traits t } = [o] := by
        simp [storage.held_ids, storage.held, storage.get, storage.deref, hf]
      refine ⟨_, _, destroy_inline E m hf o v _, rfl, rfl, rfl, ?_, fun _ _ => rfl, ?_⟩
      · rw [hheld]
        exact released_ids_append m t o _ _
      · intro h
        cases h
    · have hf0 : E.fits t = false := by simpa using hf
      obtain ⟨a, v, hb, hl⟩ := valid_heap rfl hf0 hv
      simp only at hb
      subst hb
      have hheld : storage.held_ids E m { buf := Buf.ptr (Ptr.heap a), ops := Ops.traits t }
          = [a] := by
        simp [storage.held_ids, storage.held, storage.get, storage.deref, hf0, hl]
      refine ⟨_, _, destroy_heap E m hf0 a _, rfl, rfl, rfl, ?_, ?_, ?_⟩
      · rw [hheld]
        exact released_ids_append m t a _ _
      · intro a1 ha1
        rw [hheld, List.mem_singleton] at ha1
        exact lookup_filter_ne a1 a m.heap ha1
      · intro h
        cases h

/-- C15: for a storage in one of its three states (bound to the empty, an
inline or a heap table), the destroy entry of its table completes and leaves it
bound to the empty table, releasing what it held; running the destroy entry of
the then-bound table once more changes neither the memory nor the storage. -/
theorem destroy_idempotent (E : Env A R) (m : Mem) (s : storage) (hv : s.valid E m = true) :
    ∃ m1 s1, (Ops.table E s.ops).destroy m s = some (m1, s1) ∧ s1.ops = Ops.empty ∧
      m1.released_ids = m.released_ids ++ s.held_ids E m ∧
      (Ops.table E s1.ops).destroy m1 s1 = some (m1, s1) := by
  obtain ⟨m1, s1, hd, he, _, _, hr, _, _⟩ := destroy_exact E m s hv
  refine ⟨m1, s1, ?_, he, hr, ?_⟩
  · rw [table_destroy]
    exact hd
  · rw [table_destroy, he]
    rfl

/-- C15, an instance: the storage holding the heap `big_adder`. -/
theorem destroy_idempotent_witness :
    ∃ m1 s1, (Ops.table Example.env Example.w_heap.storage.ops).destroy Example.mem
        Example.w_heap.storage = some (m1, s1) ∧ s1.ops = Ops.empty ∧
      m1.released_ids = Example.mem.released_ids
        ++ Example.w_heap.storage.held_ids Example.env Example.mem ∧
      (Ops.table Example.env s1.ops).destroy m1 s1 = some (m1, s1) :=
  destroy_idempotent Example.env Example.mem Example.w_heap.storage (by decide)

end destroy_twice

section copy_failure

variable {A R : Type}

theorem sep_not_mem {E : Env A R} {m : Mem} {src dst : storage} {o : ObjId} {v : Val}
    (hsep : src.sep E m dst) (hheld : src.held E m = some (o, v)) : o ∉ dst.held_ids E m := by
  intro hin
  simp only [storage.held_ids] at hin
  cases hd : dst.held E m with
  | none => simp [hd] at hin
  | some p =>
    obtain ⟨o1, v1⟩ := p
    simp only [hd, List.mem_singleton] at hin
    exact hsep o v o1 v1 hheld hd hin

/-- C14: for a source storage bound to the inline or the heap table of a type
and a target storage in any state that holds a different object, when the copy
construction or the allocation fails during the table copy, the failure
propagates, the target ends bound to the empty table with the callable it held
released exactly once, nothing was constructed, and the source holds what it
held; a copy construction of a wrapper that fails this way constructs no
wrapper and leaves the heap, the construction log and the release log as they
were. -/
theorem copy_failure_leaves_empty (E : Env A R) (m : Mem) (src dst : storage) (t : TypeId)
    (o : ObjId) (v : Val) (addr : Nat)
    (hs : src.ops = Ops.traits t) (hheld : src.held E m = some (o, v))
    (hd : dst.valid E m = true) (hsep : src.sep E m dst)
    (hfail : (∃ e, (E.ty t).copy_ctor v = .error e) ∨
      (E.fits t = false ∧ E.alloc_ok m.allocs = false)) :
    (∃ exn m1 dst1, (Ops.table E src.ops).copy m src dst = Outcome.throw exn (m1, dst1) ∧
      dst1.ops = Ops.empty ∧
      m1.released_ids = m.released_ids ++ dst.held_ids E m ∧
      m1.made = m.made ∧
      src.held E m1 = some (o, v)) ∧
    (∃ exn m2, function.copy_ctor E addr m { addr := 0, storage := src } = Outcome.throw exn m2 ∧
      m2.heap = m.heap ∧ m2.made = m.made ∧ m2.freed = m.freed) := by
  have key : ∀ dst : storage, dst.valid E m = true → src.sep E m dst →
      ∃ exn m1 dst1, (Ops.table E src.ops).copy m src dst = Outcome.throw exn (m1, dst1) ∧
        dst1.ops = Ops.empty ∧
        m1.released_ids = m.released_ids ++ dst.held_ids E m ∧
        m1.made = m.made ∧
        src.held E m1 = some (o, v) ∧
        (dst.ops = Ops.empty → m1.heap = m.heap ∧ m1.freed = m.freed) := by
    intro dst hd hsep
    obtain ⟨md, dd, hdes, hde, hmade, hall, hrel, hheap, hemp⟩ := destroy_exact E m dst hd
    have hnot : o ∉ dst.held_ids E m := sep_not_mem hsep hheld
    obtain ⟨buf, ops⟩ := src
    simp only at hs
    subst hs
    have hv : storage.valid E m { buf := buf, ops := Ops.traits t } = true := by
      simp only [storage.held] at hheld
      simp only [storage.valid, hheld, Option.isSome_some]
    by_cases hf : E.fits t = true
    · obtain ⟨o1, v1, hb⟩ := valid_inline rfl hf hv
      simp only at hb
      subst hb
      have hov : o1 = o ∧ v1 = v := by
        simpa [storage.held, storage.get, storage.deref, hf] using hheld
      obtain ⟨rfl, rfl⟩ := hov
      rcases hfail with ⟨e, he⟩ | ⟨hf0, _⟩
      · have hc := copy_inline E m hf o1 v1 (Ops.traits t) dst hdes
        simp only [he] at hc
        refine ⟨_, md, dd, hc, hde, hrel, hmade, ?_, ?_⟩
        · simp [storage.held, storage.get, storage.deref, hf]
        · intro h
          rw [(hemp h).1]
          exact ⟨rfl, rfl⟩
      · rw [hf] at hf0
        cases hf0
    · have hf0 : E.fits t = false := by simpa using hf
      obtain ⟨a, v1, hb, hl⟩ := valid_heap rfl hf0 hv
      simp only at hb
      subst hb
      have hov : a = o ∧ v1 = v := by
        simpa [storage.held, storage.get, storage.deref, hf0, hl] using hheld
      obtain ⟨rfl, rfl⟩ := hov
      have hl1 : md.heap.lookup a = some (t, v1) := by
        rw [hheap a hnot]
        exact hl
      have hc := copy_heap E m hf0 a (Ops.traits t) dst hdes hl1
      have hheld1 : ∀ n, storage.held E { md with allocs := n }
          { buf := Buf.ptr (Ptr.heap a), ops := Ops.traits t } = some (a, v1) := by
        intro n
        simp [storage.held, storage.get, storage.deref, hf0, hl1]
      by_cases hal : E.alloc_ok md.allocs = true
      · rcases hfail with ⟨e, he⟩ | ⟨_, hal0⟩
        · simp only [he, new_error E md t e hal] at hc
          refine ⟨_, _, dd, hc, hde, hrel, hmade, hheld1 _, ?_⟩
          intro h
          rw [(hemp h).1]
          exact ⟨rfl, rfl⟩
        · rw [hall, hal0] at hal
          cases hal
      · have hal0 : E.alloc_ok md.allocs = false := by simpa using hal
        simp only [new_bad_alloc E md t _ hal0] at hc
        refine ⟨_, _, dd, hc, hde, hrel, hmade, hheld1 _, ?_⟩
        intro h
        rw [(hemp h).1]
        exact ⟨rfl, rfl⟩
  constructor
  · obtain ⟨exn, m1, dst1, h1, h2, h3, h4, h5, _⟩ := key dst hd hsep
    exact ⟨exn, m1, dst1, h1, h2, h3, h4, h5⟩
  · obtain ⟨exn, m1, dst1, h1, h2, _, h4, _, h6⟩ :=
      key storage.default rfl (sep_of_empty_right E m _ rfl)
    have hdt : dst1.dtor E m1 = some (m1, dst1) := by
      simp only [storage.dtor, table_destroy, h2, destroy_empty]
    refine ⟨exn, m1, ?_, (h6 rfl).1, h4, (h6 rfl).2⟩
    simp only [function.copy_ctor, h1, hdt]

/-- C14, an instance: the heap callable that cannot be copied, copied into the
storage that holds the inline `adder`. -/
theorem copy_failure_leaves_empty_witness :
    (∃ exn m1 dst1, (Ops.table Example.env (Ops.traits 3)).copy
        { heap := [(1, 3, 9)], made := [1, 3], freed := [], allocs := 1 }
        { buf := Buf.ptr (Ptr.heap 1), ops := Ops.traits 3 } Example.w_inline.storage
        = Outcome.throw exn (m1, dst1) ∧
      dst1.ops = Ops.empty ∧
      m1.released_ids
        = Mem.released_ids { heap := [(1, 3, 9)], made := [1, 3], freed := [], allocs := 1 }
          ++ Example.w_inline.storage.held_ids Example.env
              { heap := [(1, 3, 9)], made := [1, 3], freed := [], allocs := 1 } ∧
      m1.made = [1, 3] ∧
      storage.held Example.env m1 { buf := Buf.ptr (Ptr.heap 1), ops := Ops.traits 3 }
        = some (1, 9)) ∧
    (∃ exn m2, function.copy_ctor Example.env 12
        { heap := [(1, 3, 9)], made := [1, 3], freed := [], allocs := 1 }
        { addr := 0, storage := { buf := Buf.ptr (Ptr.heap 1), ops := Ops.traits 3 } }
        = Outcome.throw exn m2 ∧
      m2.heap = [(1, 3, 9)] ∧ m2.made = [1, 3] ∧ m2.freed = []) :=
  copy_failure_leaves_empty Example.env
    { heap := [(1, 3, 9)], made := [1, 3], freed := [], allocs := 1 }
    { buf := Buf.ptr (Ptr.heap 1), ops := Ops.traits 3 } Example.w_inline.storage 3 1 9 12
    rfl (by decide) (by decide)
    (by
      intro o v o1 v1 h1 h2
      have e1 : storage.held Example.env
          { heap := [(1, 3, 9)], made := [1, 3], freed := [], allocs := 1 }
          { buf := Buf.ptr (Ptr.heap 1), ops := Ops.traits 3 } = some (1, 9) := by decide
      have e2 : storage.held Example.env
          { heap := [(1, 3, 9)], made := [1, 3], freed := [], allocs := 1 }
          Example.w_inline.storage = some (0, 3) := by decide
      rw [e1] at h1
      rw [e2] at h2
      simp only [Option.some.injEq, Prod.mk.injEq] at h1 h2
      obtain ⟨rfl, _⟩ := h1
      obtain ⟨rfl, _⟩ := h2
      decide)
    (Or.inl ⟨7, rfl⟩)

end copy_failure

section handoff

variable {A R : Type}

/-- C16: for a heap-placed type `T` and a wrapper `w1` holding a `T`, moving
`w1` into a new wrapper (move construction) or into another wrapper `w2` that
holds a different object or nothing (move assignment) makes no allocation
request and constructs no object, and the target of the receiving wrapper is
the address that `w1.target<T>()` was before the move, still holding the same
object. -/
theorem heap_move_is_handoff (E : Env A R) (m : Mem) (w1 w2 : function) (t : TypeId) (addr : Nat)
    (hf : E.fits t = false) (hops : w1.storage.ops = Ops.traits t)
    (hv1 : w1.storage.valid E m = true) (hv2 : w2.storage.valid E m = true)
    (hsep : w1.storage.sep E m w2.storage) (hne : w2.addr ≠ w1.addr) :
    (∃ a, w1.target E t = Target.heap a) ∧
    (∃ m1 w1a w2n, function.move_ctor E addr m w1 = some (m1, w1a, w2n) ∧
      m1.allocs = m.allocs ∧ m1.made = m.made ∧
      w2n.target E t = w1.target E t ∧ w2n.storage.held E m1 = w1.storage.held E m) ∧
    (∃ m1 w2a w1a, function.assign_move E m w2 w1 = some (m1, w2a, w1a) ∧
      m1.allocs = m.allocs ∧ m1.made = m.made ∧
      w2a.target E t = w1.target E t ∧ w2a.storage.held E m1 = w1.storage.held E m) := by
  obtain ⟨a1, ⟨buf, ops⟩⟩ := w1
  simp only at hops hne
  subst hops
  obtain ⟨a, v, hb, hl⟩ := valid_heap rfl hf hv1
  simp only at hb
  subst hb
  have hheld : storage.held E m { buf := Buf.ptr (Ptr.heap a), ops := Ops.traits t }
      = some (a, v) := by
    simp [storage.held, storage.get, storage.deref, hf, hl]
  have htarget : ∀ x, function.target E t
      { addr := x, storage := { buf := Buf.ptr (Ptr.heap a), ops := Ops.traits t } }
      = Target.heap a := by
    intro x
    simp [function.target, storage.get, hf]
  refine ⟨⟨a, htarget a1⟩, ?_, ?_⟩
  · have hmv := move_heap E m hf a (Ops.traits t) storage.default
      (destroy_empty E m storage.default)
    refine ⟨m, { addr := a1, storage := { buf := Buf.ptr (Ptr.heap a), ops := Ops.empty } },
      { addr := addr, storage := { buf := Buf.ptr (Ptr.heap a), ops := Ops.traits t } },
      by simp only [function.move_ctor, hmv], rfl, rfl, ?_, ?_⟩
    · rw [htarget, htarget]
    · exact rfl
  · obtain ⟨md, dd, hdes, _, hmade, hall, _, hheap, _⟩ := destroy_exact E m w2.storage hv2
    have hmv := move_heap E m hf a (Ops.traits t) w2.storage hdes
    have hnot : a ∉ w2.storage.held_ids E m := sep_not_mem hsep hheld
    have hl1 : md.heap.lookup a = some (t, v) := by
      rw [hheap a hnot]
      exact hl
    refine ⟨md, { w2 with storage := { buf := Buf.ptr (Ptr.heap a), ops := Ops.traits t } },
      { addr := a1, storage := { buf := Buf.ptr (Ptr.heap a), ops := Ops.empty } },
      by simp only [function.assign_move, hne, ne_eq, not_false_eq_true, if_true, hmv],
      hall, hmade, ?_, ?_⟩
    · rw [htarget, htarget]
    · rw [hheld]
      simp [storage.held, storage.get, storage.deref, hf, hl1]

/-- C16, an instance: the wrapper holding the heap `big_adder`, moved into a new
wrapper and into the wrapper holding the inline `adder`. -/
theorem heap_move_is_handoff_witness :
    (∃ a, Example.w_heap.target Example.env 2 = Target.heap a) ∧
    (∃ m1 w1a w2n, function.move_ctor Example.env 12 Example.mem Example.w_heap
        = some (m1, w1a, w2n) ∧
      m1.allocs = Example.mem.allocs ∧ m1.made = Example.mem.made ∧
      w2n.target Example.env 2 = Example.w_heap.target Example.env 2 ∧
      w2n.storage.held Example.env m1 = Example.w_heap.storage.held Example.env Example.mem) ∧
    (∃ m1 w2a w1a, function.assign_move Example.env Example.mem Example.w_inline Example.w_heap
        = some (m1, w2a, w1a) ∧
      m1.allocs = Example.mem.allocs ∧ m1.made = Example.mem.made ∧
      w2a.target Example.env 2 = Example.w_heap.target Example.env 2 ∧
      w2a.storage.held Example.env m1 = Example.w_heap.storage.held Example.env Example.mem) :=
  heap_move_is_handoff Example.env Example.mem Example.w_heap Example.w_inline 2 12
    (by decide) rfl (by decide) (by decide)
    (by
      intro o v o1 v1 h1 h2
      have e1 : storage.held Example.env Example.mem Example.w_heap.storage = some (1, 5) := by
        decide
      have e2 : storage.held Example.env Example.mem Example.w_inline.storage = some (0, 3) := by
        decide
      rw [e1] at h1
      rw [e2] at h2
      simp only [Option.some.injEq, Prod.mk.injEq] at h1 h2
      obtain ⟨rfl, _⟩ := h1
      obtain ⟨rfl, _⟩ := h2
      decide)
    (by decide)

end handoff

section type_safety

variable {A R : Type}

end type_safety


section assign_success

variable {A R : Type}

theorem valid_of_held_eq (E : Env A R) {m m1 : Mem} (s : storage)
    (h : s.held E m1 = s.held E m) (hv : s.valid E m = true) : s.valid E m1 = true := by
  obtain ⟨buf, ops⟩ := s
  cases ops with
  | empty => rfl
  | traits t =>
    simp only [storage.held, storage.valid] at h hv ⊢
    rw [h]
    exact hv

theorem released_ids_congr {m m1 : Mem} (h : m1.freed = m.freed) :
    m1.released_ids = m.released_ids := by
  simp only [Mem.released_ids, h]

/-- The exact effect of a table move into a storage bound to the empty table. -/
theorem move_into_empty_exact (E : Env A R) (m : Mem) (src dst : storage)
    (hg : src.good E m) (hd : dst.ops = Ops.empty) :
    ∃ m1 src1 dst1, (Ops.table E src.ops).move m src dst = some (m1, src1, dst1) ∧
      src1.ops = Ops.empty ∧ dst1.ops = src.ops ∧ dst1.valid E m1 = true ∧
      m1.heap = m.heap ∧ m1.freed = m.freed ∧ m1.allocs = m.allocs ∧
      m.made.length ≤ m1.made.length ∧
      (∀ o ∈ dst1.held_ids E m1, o < m1.made.length) ∧
      (src.ops = Ops.empty → dst1.held_ids E m1 = []) ∧
      (∀ t, src.ops = Ops.traits t → E.fits t = false →
        dst1.held_ids E m1 = src.held_ids E m) ∧
      (∀ t, src.ops = Ops.traits t → E.fits t = true →
        dst1.held_ids E m1 = [m.made.length]) := by
  obtain ⟨buf, ops⟩ := src
  obtain ⟨dbuf, dops⟩ := dst
  simp only at hd
  subst hd
  cases ops with
  | empty =>
    refine ⟨_, _, _, move_empty E m _ _, rfl, rfl, rfl, rfl, rfl, rfl, Nat.le_refl _, ?_,
      fun _ => held_ids_of_empty E m rfl, ?_, ?_⟩
    · intro o ho
      rw [held_ids_of_empty E m rfl] at ho
      cases ho
    · intro t ht
      cases ht
    · intro t ht
      cases ht
  | traits t =>
    by_cases hf : E.fits t = true
    · obtain ⟨o, v, hb⟩ := valid_inline rfl hf hg.1
      simp only at hb
      subst hb
      obtain ⟨⟨v1, left⟩, hrun⟩ := fits_run_ok hf v
      have hids : storage.held_ids E { m with made := m.made ++ [t] }
          { buf := Buf.obj t m.made.length v1, ops := Ops.traits t } = [m.made.length] := by
        simp [storage.held_ids, storage.held, storage.get, storage.deref, hf]
      refine ⟨_, _, _, move_inline E m hf o v _ _ (destroy_empty E m _) hrun,
        rfl, rfl, ?_, rfl, rfl, rfl, by simp, ?_, ?_, ?_, ?_⟩
      · simp [storage.valid, storage.get, storage.deref, hf]
      · intro o1 ho1
        rw [hids, List.mem_singleton] at ho1
        subst ho1
        simp
      · intro h
        cases h
      · intro t1 ht1 hf1
        injection ht1 with ht1
        subst ht1
        rw [hf] at hf1
        cases hf1
      · intro t1 _ _
        exact hids
    · have hf0 : E.fits t = false := by simpa using hf
      obtain ⟨a, v, hb, hl⟩ := valid_heap rfl hf0 hg.1
      simp only at hb
      subst hb
      have hheld : storage.held E m { buf := Buf.ptr (Ptr.heap a), ops := Ops.traits t }
          = some (a, v) := by
        simp [storage.held, storage.get, storage.deref, hf0, hl]
      have hids : storage.held_ids E m { buf := Buf.ptr (Ptr.heap a), ops := Ops.traits t }
          = [a] := by
        simp only [storage.held_ids, hheld]
      refine ⟨_, _, _, move_heap E m hf0 a _ _ (destroy_empty E m _),
        rfl, rfl, hg.1, rfl, rfl, rfl, Nat.le_refl _, ?_, ?_, ?_, ?_⟩
      · intro o1 ho1
        rw [hids, List.mem_singleton] at ho1
        subst ho1
        exact (hg.2 o1 v hheld).1
      · intro h
        cases h
      · intro t1 _ _
        rfl
      · intro t1 ht1 hf1
        injection ht1 with ht1
        subst ht1
        rw [hf0] at hf1
        cases hf1

/-- The exact effect of a table copy that succeeds, into a storage bound to the
empty table. -/
theorem copy_into_empty_ok (E : Env A R) (m : Mem) (src dst : storage)
    (hv : src.valid E m = true) (hd : dst.ops = Ops.empty)
    (hok : ∀ t o v, src.ops = Ops.traits t → src.held E m = some (o, v) →
      (∃ v1, (E.ty t).copy_ctor v = .ok v1) ∧ (E.fits t = false → E.alloc_ok m.allocs = true)) :
    ∃ m1 dst1, (Ops.table E src.ops).copy m src dst = Outcome.ok (m1, dst1) ∧
      dst1.ops = src.ops ∧ m1.freed = m.freed ∧
      (∀ a, a < m.made.length → m1.heap.lookup a = m.heap.lookup a) ∧
      m.made.length ≤ m1.made.length ∧
      dst1.valid E m1 = true ∧
      (∀ o ∈ dst1.held_ids E m1, o = m.made.length) ∧
      (∀ t o v, src.ops = Ops.traits t → src.held E m = some (o, v) →
        ∃ v1, (E.ty t).copy_ctor v = .ok v1 ∧ dst1.held E m1 = some (m.made.length, v1)) := by
  obtain ⟨buf, ops⟩ := src
  obtain ⟨dbuf, dops⟩ := dst
  simp only at hd
  subst hd
  cases ops with
  | empty =>
    refine ⟨_, _, copy_empty E m _ _, rfl, rfl, fun _ _ => rfl, Nat.le_refl _, rfl, ?_, ?_⟩
    · intro o ho
      rw [held_ids_of_empty E m rfl] at ho
      cases ho
    · intro t o v h
      cases h
  | traits t =>
    by_cases hf : E.fits t = true
    · obtain ⟨o, v, hb⟩ := valid_inline rfl hf hv
      simp only at hb
      subst hb
      have hheld : storage.held E m { buf := Buf.obj t o v, ops := Ops.traits t } = some (o, v) := by
        simp [storage.held, storage.get, storage.deref, hf]
      obtain ⟨⟨v1, hv1⟩, _⟩ := hok t o v rfl hheld
      have hc := copy_inline E m hf o v (Ops.traits t) { buf := dbuf, ops := Ops.empty }
        (destroy_empty E m _)
      simp only [hv1] at hc
      have hh1 : storage.held E { m with made := m.made ++ [t] }
          { buf := Buf.obj t m.made.length v1, ops := Ops.traits t }
          = some (m.made.length, v1) := by
        simp [storage.held, storage.get, storage.deref, hf]
      refine ⟨_, _, hc, rfl, rfl, fun _ _ => rfl, by simp, ?_, ?_, ?_⟩
      · simp [storage.valid, storage.get, storage.deref, hf]
      · intro o1 ho1
        simp only [storage.held_ids, hh1, List.mem_singleton] at ho1
        exact ho1
      · intro t1 o1 v2 ht1 hh
        injection ht1 with ht1
        subst ht1
        rw [hheld] at hh
        simp only [Option.some.injEq, Prod.mk.injEq] at hh
        obtain ⟨_, rfl⟩ := hh
        exact ⟨v1, hv1, hh1⟩
    · have hf0 : E.fits t = false := by simpa using hf
      obtain ⟨a, v, hb, hl⟩ := valid_heap rfl hf0 hv
      simp only at hb
      subst hb
      have hheld : storage.held E m { buf := Buf.ptr (Ptr.heap a), ops := Ops.traits t }
          = some (a, v) := by
        simp [storage.held, storage.get, storage.deref, hf0, hl]
      obtain ⟨⟨v1, hv1⟩, hal⟩ := hok t a v rfl hheld
      have hc := copy_heap E m hf0 a (Ops.traits t) { buf := dbuf, ops := Ops.empty }
        (destroy_empty E m _) hl
      simp only [hv1, new_ok E m t v1 (hal hf0)] at hc
      have hh1 : storage.held E { heap := (m.made.length, t, v1) :: m.heap,
                                  made := m.made ++ [t], freed := m.freed,
                                  allocs := m.allocs + 1 }
          { buf := Buf.ptr (Ptr.heap m.made.length), ops := Ops.traits t }
          = some (m.made.length, v1) := by
        simp [storage.held, storage.get, storage.deref, hf0]
      refine ⟨_, _, hc, rfl, rfl, ?_, by simp, ?_, ?_, ?_⟩
      · intro a1 ha1
        have : (a1 == m.made.length) = false := by simpa using Nat.ne_of_lt ha1
        simp only [List.lookup_cons, this]
      · simp [storage.valid, storage.get, storage.deref, hf0]
      · intro o1 ho1
        simp only [storage.held_ids, hh1, List.mem_singleton] at ho1
        exact ho1
      · intro t1 o1 v2 ht1 hh
        injection ht1 with ht1
        subst ht1
        rw [hheld] at hh
        simp only [Option.some.injEq, Prod.mk.injEq] at hh
        obtain ⟨_, rfl⟩ := hh
        exact ⟨v1, hv1, hh1⟩

end assign_success

section assign_success2

variable {A R : Type}

theorem mem_held_ids {E : Env A R} {m : Mem} {s : storage} {o : ObjId} {v : Val}
    (h : s.held E m = some (o, v)) : o ∈ s.held_ids E m := by
  simp only [storage.held_ids, h, List.mem_singleton]

theorem held_of_mem_held_ids {E : Env A R} {m : Mem} {s : storage} {o : ObjId}
    (h : o ∈ s.held_ids E m) : ∃ v, s.held E m = some (o, v) := by
  simp only [storage.held_ids] at h
  cases hs : s.held E m with
  | none => simp [hs] at h
  | some p =>
    obtain ⟨o1, v1⟩ := p
    simp only [hs, List.mem_singleton] at h
    exact ⟨v1, by rw [h]⟩

theorem held_ids_congr {E : Env A R} {m m1 : Mem} {s : storage}
    (h : s.held E m1 = s.held E m) : s.held_ids E m1 = s.held_ids E m := by
  simp only [storage.held_ids, h]

/-- Copy assignment that succeeds, between distinct good wrappers `a` and `b`
that hold different objects: it completes; `b` holds what it held; `a` is bound
to the table of `b` and, when `b` holds a callable, holds a new object built by
the copy constructor from it.  The release log is unchanged when `a` was empty
and grows by exactly the object `a` held when that object is on the heap.  When
`a` held its object inline, the release log grows by the object that the move
into the local backup constructed, and the object `a` held is not released. -/
theorem assign_copy_completes (E : Env A R) (m : Mem) (a b : function)
    (hne : a.addr ≠ b.addr)
    (hga : a.storage.good E m) (hgb : b.storage.good E m)
    (hsep : a.storage.sep E m b.storage)
    (hok : ∀ t o v, b.storage.ops = Ops.traits t → b.storage.held E m = some (o, v) →
      (∃ v1, (E.ty t).copy_ctor v = .ok v1) ∧ (E.fits t = false → E.alloc_ok m.allocs = true)) :
    ∃ m1 a1, function.assign_copy E m a b = Outcome.ok (m1, a1) ∧
      a1.addr = a.addr ∧ a1.storage.ops = b.storage.ops ∧ a1.to_bool = b.to_bool ∧
      b.storage.held E m1 = b.storage.held E m ∧
      (∀ t o v, b.storage.ops = Ops.traits t → b.storage.held E m = some (o, v) →
        ∃ o1 v1, (E.ty t).copy_ctor v = .ok v1 ∧ a1.storage.held E m1 = some (o1, v1) ∧
          m.made.length ≤ o1) ∧
      (a.storage.ops = Ops.empty → m1.released_ids = m.released_ids) ∧
      (∀ ta, a.storage.ops = Ops.traits ta → E.fits ta = false →
        m1.released_ids = m.released_ids ++ a.storage.held_ids E m) ∧
      (∀ ta, a.storage.ops = Ops.traits ta → E.fits ta = true →
        m1.released_ids = m.released_ids ++ [m.made.length] ∧
        ∀ o ∈ a.storage.held_ids E m, o ∉ m1.released_ids) := by
  obtain ⟨m1, self1, backup, hmv, hs1, _, hbv, hh1, hf1, hal1, hlen1, hbbound, hbe, hbheap,
      hbinl⟩ :=
    move_into_empty_exact E m a.storage storage.default hga rfl
  have hbh1 : b.storage.held E m1 = b.storage.held E m := held_congr E hh1 b.storage
  have hbv1 : b.storage.valid E m1 = true := by
    rw [valid_congr E hh1]
    exact hgb.1
  have hok1 : ∀ t o v, b.storage.ops = Ops.traits t → b.storage.held E m1 = some (o, v) →
      (∃ v1, (E.ty t).copy_ctor v = .ok v1) ∧
        (E.fits t = false → E.alloc_ok m1.allocs = true) := by
    intro t o v ht hh
    rw [hbh1] at hh
    rw [hal1]
    exact hok t o v ht hh
  obtain ⟨m2, self2, hcp, hs2o, hf2, hheap2, hlen2, hs2v, hs2ids, hs2held⟩ :=
    copy_into_empty_ok E m1 b.storage self1 hbv1 hs1 hok1
  have hbk2 : backup.held E m2 = backup.held E m1 :=
    held_eq_of_lookup E backup (fun o v ho => hheap2 o (hbbound o (mem_held_ids ho))) hbv
  have hbv2 : backup.valid E m2 = true := valid_of_held_eq E backup hbk2 hbv
  obtain ⟨m3, b3, hdes, _, _, _, hrel3, hheap3, _⟩ := destroy_exact E m2 backup hbv2
  have hbids2 : backup.held_ids E m2 = backup.held_ids E m1 := held_ids_congr hbk2
  have hdt : backup.dtor E m2 = some (m3, b3) := by
    simp only [storage.dtor, table_destroy, hdes]
  have hbh2 : b.storage.held E m2 = b.storage.held E m1 :=
    held_eq_of_lookup E b.storage (fun o v ho => hheap2 o (by
      rw [hbh1] at ho
      exact Nat.lt_of_lt_of_le (hgb.2 o v ho).1 hlen1)) hbv1
  have hbv2b : b.storage.valid E m2 = true := valid_of_held_eq E b.storage hbh2 hbv1
  have hnotb : ∀ o v, b.storage.held E m = some (o, v) → o ∉ backup.held_ids E m1 := by
    intro o v ho hin
    cases hao : a.storage.ops with
    | empty =>
      rw [hbe hao] at hin
      cases hin
    | traits ta =>
      by_cases hfa : E.fits ta = true
      · rw [hbinl ta hao hfa, List.mem_singleton] at hin
        exact absurd (hgb.2 o v ho).1 (by rw [hin]; exact Nat.lt_irrefl _)
      · have hfa0 : E.fits ta = false := by simpa using hfa
        rw [hbheap ta hao hfa0] at hin
        exact sep_not_mem (sep_symm hsep) ho hin
  have hbh3 : b.storage.held E m3 = b.storage.held E m2 :=
    held_eq_of_lookup E b.storage (fun o v ho => hheap3 o (by
      rw [hbids2]
      rw [hbh2, hbh1] at ho
      exact hnotb o v ho)) hbv2b
  have hsh3 : self2.held E m3 = self2.held E m2 :=
    held_eq_of_lookup E self2 (fun o v ho => hheap3 o (by
      intro hin
      have h1 := hs2ids o (mem_held_ids ho)
      have h2 := hbbound o (by rw [← hbids2]; exact hin)
      rw [h1] at h2
      exact Nat.lt_irrefl _ h2)) hs2v
  have hrel : m3.released_ids = m.released_ids ++ backup.held_ids E m1 := by
    rw [hrel3, hbids2, released_ids_congr hf2, released_ids_congr hf1]
  refine ⟨m3, { a with storage := self2 }, ?_, rfl, hs2o, ?_, ?_, ?_, ?_, ?_, ?_⟩
  · simp only [function.assign_copy, hne, ne_eq, not_false_eq_true, if_true, hmv, hcp, hdt]
  · show decide (self2.ops ≠ Ops.empty) = decide (b.storage.ops ≠ Ops.empty)
    rw [hs2o]
  · rw [hbh3, hbh2, hbh1]
  · intro t o v ht hh
    rw [← hbh1] at hh
    obtain ⟨v1, hv1, hheld⟩ := hs2held t o v ht hh
    refine ⟨m1.made.length, v1, hv1, ?_, hlen1⟩
    show self2.held E m3 = some (m1.made.length, v1)
    rw [hsh3]
    exact hheld
  · intro hao
    rw [hrel, hbe hao, List.append_nil]
  · intro ta hao hfa
    rw [hrel, hbheap ta hao hfa]
  · intro ta hao hfa
    rw [hrel, hbinl ta hao hfa]
    refine ⟨rfl, ?_⟩
    intro o ho hin
    obtain ⟨v, hv⟩ := held_of_mem_held_ids ho
    rw [List.mem_append, List.mem_singleton] at hin
    rcases hin with h | h
    · exact (hga.2 o v hv).2 h
    · exact absurd (hga.2 o v hv).1 (by rw [h]; exact Nat.lt_irrefl _)

/-- C18 fails when `a` holds its callable inline: `a` holds the `adder` object 0
and `b` a heap callable; the copy assignment `a = b` succeeds and leaves `a`
bound to the table of `b` with a new copy, but the one object it releases is
object 2, the one that the move into the local backup constructed; object 0,
which `a` held, is not released by the assignment, nor when all wrappers are
destroyed afterwards. -/
theorem assign_copy_skips_inline_original :
    Example.w_inline.storage.held_ids Example.env Example.mem = [0] ∧
    function.assign_copy Example.env Example.mem Example.w_inline Example.w_heap
      = Outcome.ok
          ({ heap := [(3, 2, 5), (1, 2, 5)], made := [1, 2, 1, 2], freed := [(1, 2)],
             allocs := 2 },
           { addr := 10, storage := { buf := Buf.ptr (Ptr.heap 3), ops := Ops.traits 2 } }) ∧
    (State.run Example.env State.init
        [Cmd.construct_from 0 1 3, Cmd.construct_from 1 2 5, Cmd.copy_assign 0 1,
         Cmd.destroy 0, Cmd.destroy 1]).map
        (fun s => (s.ws, s.mem.made, s.mem.released_ids)) = some ([], [1, 2, 1, 2], [2, 3, 1]) := by
  decide

end assign_success2
